import Mathlib

/-!
Verification of the odds-analysis engine of `app/services/ev.py`.

The Python engine is shallowly embedded over `ℚ` (exact rational arithmetic
standing in for IEEE floats; every property proved here is an algebraic
identity or inequality that holds exactly over `ℚ`).  Python `dict`s with
insertion-order iteration are embedded as ordered association lists with a
`setdefault`-append primitive.  Python code that can raise (division by zero
in `american_to_decimal`) is embedded with `Option`.
-/

attribute [local semireducible] Rat.mul Rat.inv Rat.add Rat.sub

namespace OddsCli

/-- One bookmaker's price for one outcome (`app/api/models.py`, `OutcomeOdds`). -/
structure OutcomeOdds where
  name : String
  price : ℚ
  point : Option ℚ := none
  description : Option String := none
  deriving DecidableEq, Repr

/-- A named betting market attached to one bookmaker (`app/api/models.py`, `Market`). -/
structure Mkt where
  key : String
  outcomes : List OutcomeOdds := []
  deriving DecidableEq, Repr

/-- A named price source (`app/api/models.py`, `Bookmaker`). -/
structure Bookmaker where
  key : String
  title : String
  markets : List Mkt := []
  deriving DecidableEq, Repr

/-- A single real-world contest (`app/api/models.py`, `Event`); only the fields
the analysis engine reads are embedded. -/
structure Event where
  id : String
  sport_key : String
  home_team : String
  away_team : String
  bookmakers : List Bookmaker := []
  deriving DecidableEq, Repr

/-- `american_to_decimal` (ev.py lines 89-94).  The Python `else` branch divides
by `abs(american)`, which raises `ZeroDivisionError` when the input is `0`;
the embedding returns `none` exactly there. -/
def american_to_decimal (american : ℚ) : Option ℚ :=
  if 100 ≤ american then some (american / 100 + 1)
  else if american = 0 then none
  else some (100 / |american| + 1)

/-- `american_to_implied_prob` (ev.py lines 97-102).  Total: both branch
denominators are strictly positive. -/
def american_to_implied_prob (american : ℚ) : ℚ :=
  if american < 0 then |american| / (|american| + 100)
  else 100 / (american + 100)

/-- `prob_to_american` (ev.py lines 105-112). -/
def prob_to_american (prob : ℚ) : ℚ :=
  if prob ≤ 0 ∨ 1 ≤ prob then 0
  else if 1/2 ≤ prob then -(prob / (1 - prob)) * 100
  else ((1 - prob) / prob) * 100

/-- `remove_vig` (ev.py lines 115-120). -/
def remove_vig (probs : List ℚ) : List ℚ :=
  let total := probs.sum
  if total = 0 then probs
  else probs.map (fun p => p / total)

/-- `_POINT_DENSITY` (ev.py lines 531-538). -/
def POINT_DENSITY : List (String × ℚ) :=
  [("basketball_nba", 35/1000),
   ("basketball_ncaab", 4/100),
   ("americanfootball_nfl", 45/1000),
   ("americanfootball_ncaaf", 45/1000),
   ("baseball_mlb", 8/100),
   ("icehockey_nhl", 7/100)]

/-- `_DEFAULT_POINT_DENSITY` (ev.py line 539). -/
def DEFAULT_POINT_DENSITY : ℚ := 4/100

/-- `_POINT_DENSITY.get(sport_key, _DEFAULT_POINT_DENSITY)`. -/
def point_density (sport_key : String) : ℚ :=
  (POINT_DENSITY.lookup sport_key).getD DEFAULT_POINT_DENSITY

/-- `_estimate_middle_hit_prob` (ev.py lines 542-565): sport density times the
number of integer landing spots `max(1, math.floor(window_size))`, capped at
`0.30`.  The `market_key` argument is accepted and ignored, as in the source.
(`Rat.floor` is used rather than `⌊·⌋` so the definition kernel-evaluates;
they agree, see `rat_floor_eq_floor`.) -/
def estimate_middle_hit_prob (window_size : ℚ) (sport_key : String)
    (market_key : String) : ℚ :=
  let density := point_density sport_key
  let landing_spots : ℤ := max 1 (Rat.floor window_size)
  min ((landing_spots : ℚ) * density) (30/100)

/-- The executable `Rat.floor` agrees with the mathematical floor. -/
theorem rat_floor_eq_floor (q : ℚ) : Rat.floor q = ⌊q⌋ := by
  rw [Rat.floor_def]
  unfold Rat.floor
  split
  · rename_i h
    rw [h]
    simp
  · rfl

/-- `_compute_middle_ev` (ev.py lines 568-592); `none` when a leg's decimal
odds are uncomputable (American price `0`). -/
def compute_middle_ev (odds_a odds_b hit_prob : ℚ) : Option ℚ := do
  let dec_a ← american_to_decimal odds_a
  let dec_b ← american_to_decimal odds_b
  let profit_if_hit := dec_a + dec_b - 2
  let profit_if_miss := ((dec_a - 2) + (dec_b - 2)) / 2
  let ev := hit_prob * profit_if_hit + (1 - hit_prob) * profit_if_miss
  pure (ev / 2 * 100)

/-! ### Ordered association lists: the embedding of Python `dict`s
(whose iteration order is insertion order). -/

/-- `d.setdefault(k, []).append(v)` on an insertion-ordered dictionary of
lists. -/
def upsert_append {K A : Type} [DecidableEq K] (k : K) (v : A) :
    List (K × List A) → List (K × List A)
  | [] => [(k, [v])]
  | (k', vs) :: rest =>
      if k' = k then (k', vs ++ [v]) :: rest
      else (k', vs) :: upsert_append k v rest

/-- `d.setdefault(k1, {}).setdefault(k2, []).append(v)` on a two-level
insertion-ordered dictionary. -/
def upsert_append2 {K1 K2 A : Type} [DecidableEq K1] [DecidableEq K2]
    (k1 : K1) (k2 : K2) (v : A) :
    List (K1 × List (K2 × List A)) → List (K1 × List (K2 × List A))
  | [] => [(k1, [(k2, [v])])]
  | (k, inner) :: rest =>
      if k = k1 then (k, upsert_append k2 v inner) :: rest
      else (k, inner) :: upsert_append2 k1 k2 v rest

/-- `d[k]` / `d.get(k)` on an insertion-ordered dictionary. -/
def alist_lookup {K V : Type} [DecidableEq K] (k : K) :
    List (K × V) → Option V
  | [] => none
  | (k', v) :: rest => if k' = k then some v else alist_lookup k rest

/-- Python `min(values)` with the `if ... else 0` default used at the call
sites. -/
def list_min : List ℕ → ℕ
  | [] => 0
  | x :: xs => xs.foldl Nat.min x

/-- Stable insertion of `x` in front of the first element whose statistic is
`≤ f x`: together with `sort_desc` this is Python's stable
`list.sort(key=..., reverse=True)`. -/
def insert_desc {A : Type} (f : A → ℚ) (x : A) : List A → List A
  | [] => [x]
  | y :: ys => if f y ≤ f x then x :: y :: ys else y :: insert_desc f x ys

/-- Stable sort, descending in `f`. -/
def sort_desc {A : Type} (f : A → ℚ) : List A → List A
  | [] => []
  | x :: xs => insert_desc f x (sort_desc f xs)

/-! ### The analysis engine -/

/-- Truthiness of `outcome.description` in Python (`None` and `""` are
falsy). -/
def descr_truthy (o : OutcomeOdds) : Bool :=
  match o.description with
  | none => false
  | some s => !s.isEmpty

/-- `_get_market_outcomes` (ev.py lines 123-129): outcomes of the first
market whose key matches, else `None`. -/
def get_market_outcomes (bm : Bookmaker) (market_key : String) :
    Option (List OutcomeOdds) :=
  find_in_markets bm.markets market_key
where
  find_in_markets : List Mkt → String → Option (List OutcomeOdds)
    | [], _ => none
    | m :: rest, k => if m.key = k then some m.outcomes else find_in_markets rest k

/-- `_effective_price` (ev.py lines 167-173): the dfs-override price when the
override map is truthy and has the book's key, else the raw quote. -/
def effective_price (outcome : OutcomeOdds) (bm : Bookmaker)
    (dfs_books : Option (List (String × ℚ))) : ℚ :=
  match dfs_books with
  | none => outcome.price
  | some m =>
      if m = [] then outcome.price
      else
        match m.lookup bm.key with
        | some v => v
        | none => outcome.price

/-- `_discover_market_keys` (ev.py lines 211-217); the Python `set` is
embedded as a first-appearance-ordered deduplicated list. -/
def discover_market_keys (event : Event) : List String :=
  event.bookmakers.foldl
    (fun acc bm =>
      bm.markets.foldl
        (fun acc2 m => if m.key ∈ acc2 then acc2 else acc2 ++ [m.key]) acc)
    []

/-- `_calculate_market_avg_no_vig` (ev.py lines 377-409): per-outcome mean of
implied probabilities of effective prices, contributor counts, then
normalization of the means over the whole group when their total is
positive. -/
def calculate_market_avg_no_vig {K : Type} [DecidableEq K]
    (book_outcomes : List (K × List (Bookmaker × OutcomeOdds)))
    (dfs_books : Option (List (String × ℚ))) :
    List (K × ℚ) × List (K × ℕ) :=
  let avg_probs : List (K × List ℚ) :=
    book_outcomes.foldl
      (fun acc kv =>
        kv.2.foldl
          (fun acc2 e =>
            upsert_append kv.1
              (american_to_implied_prob (effective_price e.2 e.1 dfs_books))
              acc2)
          acc)
      []
  let raw_probs : List (K × ℚ) :=
    avg_probs.filterMap
      (fun kv => if kv.2 = [] then none else some (kv.1, kv.2.sum / (kv.2.length : ℚ)))
  let counts : List (K × ℕ) := avg_probs.map (fun kv => (kv.1, kv.2.length))
  let total : ℚ := (raw_probs.map (fun kv => kv.2)).sum
  let no_vig : List (K × ℚ) :=
    if 0 < total then raw_probs.map (fun kv => (kv.1, kv.2 / total)) else []
  (no_vig, counts)

/-- A detected +EV betting opportunity (ev.py lines 12-34).  `detected_at`
holds the clock value passed in for `datetime.now()`. -/
structure EVBet where
  sport_key : String
  book : String
  book_title : String
  event_id : String
  home_team : String
  away_team : String
  market : String
  outcome_name : String
  outcome_point : Option ℚ
  odds : ℚ
  decimal_odds : ℚ
  implied_prob : ℚ
  no_vig_prob : ℚ
  fair_odds : ℚ
  ev_percentage : ℚ
  edge : ℚ
  detected_at : ℕ
  num_books : ℕ
  player_name : Option String
  is_prop : Bool
  deriving DecidableEq, Repr

/-- The keep-side of `if selected_books and bm.key not in selected_books:
continue` (ev.py lines 336-337). -/
def book_selected (selected_books : Option (List String)) (key : String) : Bool :=
  match selected_books with
  | none => true
  | some sel => sel.isEmpty || sel.contains key

/-- The keep-side of the odds-range filter (ev.py lines 342-345). -/
def in_odds_range (odds_range : Option (ℚ × ℚ)) (price : ℚ) : Bool :=
  match odds_range with
  | none => true
  | some r => decide (r.1 ≤ price) && decide (price ≤ r.2)

/-- `_emit_ev_bets` (ev.py lines 312-374), returning the list of bets this
group appends; `none` models the `ZeroDivisionError` raised by
`american_to_decimal` on a zero effective price that survives the filters. -/
def emit_ev_bets {K : Type} [DecidableEq K]
    (event : Event) (market_key : String)
    (book_outcomes : List (K × List (Bookmaker × OutcomeOdds)))
    (no_vig_probs : List (K × ℚ)) (book_counts : List (K × ℕ))
    (now : ℕ) (selected_books : Option (List String)) (ev_threshold : ℚ)
    (dfs_books : Option (List (String × ℚ))) (is_prop : Bool)
    (odds_range : Option (ℚ × ℚ)) : Option (List EVBet) :=
  book_outcomes.foldlM
    (fun acc kv =>
      match alist_lookup kv.1 no_vig_probs with
      | none => pure acc
      | some no_vig_prob =>
          if no_vig_prob ≤ 0 ∨ 1 ≤ no_vig_prob then pure acc
          else
            let fair_american := prob_to_american no_vig_prob
            let n_books := (alist_lookup kv.1 book_counts).getD 0
            kv.2.foldlM
              (fun acc2 e =>
                let bm := e.1
                let outcome := e.2
                if !(book_selected selected_books bm.key) then pure acc2
                else
                  let price := effective_price outcome bm dfs_books
                  if !(in_odds_range odds_range price) then pure acc2
                  else do
                    let decimal_odds ← american_to_decimal price
                    let ev_pct := (no_vig_prob * decimal_odds - 1) * 100
                    if ev_threshold ≤ ev_pct then
                      pure (acc2 ++ [{
                        sport_key := event.sport_key
                        book := bm.key
                        book_title := bm.title
                        event_id := event.id
                        home_team := event.home_team
                        away_team := event.away_team
                        market := market_key
                        outcome_name := outcome.name
                        outcome_point := outcome.point
                        odds := price
                        decimal_odds := decimal_odds
                        implied_prob := american_to_implied_prob price
                        no_vig_prob := no_vig_prob
                        fair_odds := fair_american
                        ev_percentage := ev_pct
                        edge := no_vig_prob * decimal_odds - 1
                        detected_at := now
                        num_books := n_books
                        player_name := if is_prop then outcome.description else none
                        is_prop := is_prop : EVBet }])
                    else pure acc2)
              acc)
    []

/-- The grouping loop of `_find_game_ev` (ev.py lines 231-238): group every
quote of a market by `(outcome name, point)`. -/
def build_game_book_outcomes (event : Event) (market_key : String) :
    List ((String × Option ℚ) × List (Bookmaker × OutcomeOdds)) :=
  event.bookmakers.foldl
    (fun acc bm =>
      match get_market_outcomes bm market_key with
      | none => acc
      | some outcomes =>
          if outcomes = [] then acc
          else
            outcomes.foldl
              (fun acc2 outcome =>
                upsert_append (outcome.name, outcome.point) (bm, outcome) acc2)
              acc)
    []

/-- The body of `_find_game_ev` for one market key (ev.py lines 230-255). -/
def find_game_ev_market (event : Event) (market_key : String) (now : ℕ)
    (selected_books : Option (List String)) (ev_threshold : ℚ)
    (dfs_books : Option (List (String × ℚ)))
    (odds_range : Option (ℚ × ℚ)) : Option (List EVBet) :=
  let book_outcomes := build_game_book_outcomes event market_key
  if book_outcomes = [] then pure []
  else
    let res := calculate_market_avg_no_vig book_outcomes dfs_books
    let min_books := list_min (res.2.map (fun kv => kv.2))
    if min_books < 3 then pure []
    else
      emit_ev_bets event market_key book_outcomes res.1 res.2 now
        selected_books ev_threshold dfs_books false odds_range

/-- `_find_game_ev` (ev.py lines 220-255). -/
def find_game_ev (event : Event) (now : ℕ)
    (selected_books : Option (List String)) (ev_threshold : ℚ)
    (dfs_books : Option (List (String × ℚ)))
    (odds_range : Option (ℚ × ℚ)) : Option (List EVBet) :=
  (discover_market_keys event).foldlM
    (fun acc mk =>
      (find_game_ev_market event mk now selected_books ev_threshold dfs_books
        odds_range).map (fun l => acc ++ l))
    []

/-- The grouping loop of `_find_prop_ev` (ev.py lines 277-290): group every
quote with a truthy player description by `(player, point)` and within a
pair by `(player, outcome name, point)`. -/
def build_prop_pairs (event : Event) (market_key : String) :
    List ((Option String × Option ℚ) ×
      List ((Option String × String × Option ℚ) × List (Bookmaker × OutcomeOdds))) :=
  event.bookmakers.foldl
    (fun acc bm =>
      match get_market_outcomes bm market_key with
      | none => acc
      | some outcomes =>
          if outcomes = [] then acc
          else
            outcomes.foldl
              (fun acc2 outcome =>
                if descr_truthy outcome then
                  upsert_append2 (outcome.description, outcome.point)
                    (outcome.description, outcome.name, outcome.point)
                    (bm, outcome) acc2
                else acc2)
              acc)
    []

/-- The body of `_find_prop_ev` for one `(player, point)` pair
(ev.py lines 293-309). -/
def find_prop_ev_pair (event : Event) (market_key : String)
    (pair_outcomes : List ((Option String × String × Option ℚ) × List (Bookmaker × OutcomeOdds)))
    (now : ℕ) (selected_books : Option (List String)) (ev_threshold : ℚ)
    (dfs_books : Option (List (String × ℚ)))
    (odds_range : Option (ℚ × ℚ)) : Option (List EVBet) :=
  if pair_outcomes.length < 2 then pure []
  else
    let res := calculate_market_avg_no_vig pair_outcomes dfs_books
    let min_books := list_min (res.2.map (fun kv => kv.2))
    if min_books < 3 then pure []
    else
      emit_ev_bets event market_key pair_outcomes res.1 res.2 now
        selected_books ev_threshold dfs_books true odds_range

/-- `_find_prop_ev` (ev.py lines 258-309). -/
def find_prop_ev (event : Event) (now : ℕ)
    (selected_books : Option (List String)) (ev_threshold : ℚ)
    (dfs_books : Option (List (String × ℚ)))
    (odds_range : Option (ℚ × ℚ)) : Option (List EVBet) :=
  (discover_market_keys event).foldlM
    (fun acc mk =>
      ((build_prop_pairs event mk).foldlM
        (fun acc2 pr =>
          (find_prop_ev_pair event mk pr.2 now selected_books ev_threshold
            dfs_books odds_range).map (fun l => acc2 ++ l))
        []).map (fun l => acc ++ l))
    []

/-- `starts_with` on character lists, for the embedding of Python's substring
operator `in`. -/
def chars_start_with : List Char → List Char → Bool
  | _, [] => true
  | [], _ :: _ => false
  | c :: cs, p :: ps => c = p && chars_start_with cs ps

/-- Substring occurrence on character lists. -/
def chars_contain (pat : List Char) : List Char → Bool
  | [] => chars_start_with [] pat
  | c :: cs => chars_start_with (c :: cs) pat || chars_contain pat cs

/-- Python `pat in s` on strings. -/
def str_contains (s pat : String) : Bool :=
  chars_contain pat.data s.data

/-- A detected two-leg arbitrage opportunity (ev.py lines 37-58). -/
structure ArbBet where
  sport_key : String
  event_id : String
  home_team : String
  away_team : String
  market : String
  book_a : String
  book_a_title : String
  outcome_a : String
  odds_a : ℚ
  point_a : Option ℚ
  book_b : String
  book_b_title : String
  outcome_b : String
  odds_b : ℚ
  point_b : Option ℚ
  profit_pct : ℚ
  implied_sum : ℚ
  player_name : Option String
  is_prop : Bool
  deriving DecidableEq, Repr

/-- A detected cross-line middle opportunity (ev.py lines 61-86). -/
structure MiddleBet where
  sport_key : String
  event_id : String
  home_team : String
  away_team : String
  market : String
  book_a : String
  book_a_title : String
  line_a : ℚ
  odds_a : ℚ
  outcome_a : String
  book_b : String
  book_b_title : String
  line_b : ℚ
  odds_b : ℚ
  outcome_b : String
  middle_low : ℚ
  middle_high : ℚ
  window_size : ℚ
  combined_cost : ℚ
  hit_prob : ℚ
  ev_percentage : ℚ
  player_name : Option String
  is_prop : Bool
  deriving DecidableEq, Repr

/-- `best_per_side[k] = (price, bm, out)` kept only when `k` is new or the
price is strictly better (ev.py lines 482-486 and 820-823). -/
def upsert_best {K : Type} [DecidableEq K] (k : K) (price : ℚ)
    (bm : Bookmaker) (out : OutcomeOdds) :
    List (K × (ℚ × Bookmaker × OutcomeOdds)) →
      List (K × (ℚ × Bookmaker × OutcomeOdds))
  | [] => [(k, (price, bm, out))]
  | (k', pv) :: rest =>
      if k' = k then
        if pv.1 < price then (k', (price, bm, out)) :: rest
        else (k', pv) :: rest
      else (k', pv) :: upsert_best k price bm out rest

/-- `for i in range(n): for j in range(i+1, n)` over a list. -/
def all_ordered_pairs {A : Type} : List A → List (A × A)
  | [] => []
  | x :: xs => xs.map (fun y => (x, y)) ++ all_ordered_pairs xs

/-- The line-grouping loop of `_find_market_arbs` (ev.py lines 452-473):
h2h markets share one `None` line, spreads/totals group by `|point|`. -/
def build_arb_line_groups (event : Event) (market_key : String) :
    List (Option ℚ × List ((String × Option ℚ) × List (Bookmaker × OutcomeOdds))) :=
  event.bookmakers.foldl
    (fun acc bm =>
      match get_market_outcomes bm market_key with
      | none => acc
      | some outcomes =>
          if outcomes = [] then acc
          else
            outcomes.foldl
              (fun acc2 outcome =>
                let line_key : Option ℚ :=
                  if market_key = ("h2h") ∨ str_contains market_key ("h2h") then none
                  else match outcome.point with
                    | some pt => some |pt|
                    | none => none
                upsert_append2 line_key (outcome.name, outcome.point)
                  (bm, outcome) acc2)
              acc)
    []

/-- The per-line-group body of `_find_market_arbs` (ev.py lines 476-521). -/
def arbs_of_line_group (event : Event) (market_key : String)
    (sides : List ((String × Option ℚ) × List (Bookmaker × OutcomeOdds)))
    (min_profit_pct : ℚ)
    (dfs_books : Option (List (String × ℚ))) : List ArbBet :=
  if sides.length < 2 then []
  else
    let best_per_side :=
      sides.foldl
        (fun best kv =>
          kv.2.foldl
            (fun best2 e =>
              upsert_best kv.1 (effective_price e.2 e.1 dfs_books) e.1 e.2 best2)
            best)
        []
    (all_ordered_pairs best_per_side).foldl
      (fun acc pr =>
        let price_a := pr.1.2.1
        let bm_a := pr.1.2.2.1
        let out_a := pr.1.2.2.2
        let price_b := pr.2.2.1
        let bm_b := pr.2.2.2.1
        let out_b := pr.2.2.2.2
        let imp_a := american_to_implied_prob price_a
        let imp_b := american_to_implied_prob price_b
        let imp_sum := imp_a + imp_b
        if imp_sum < 1 then
          let profit := (1 / imp_sum - 1) * 100
          if min_profit_pct ≤ profit then
            acc ++ [{
              sport_key := event.sport_key
              event_id := event.id
              home_team := event.home_team
              away_team := event.away_team
              market := market_key
              book_a := bm_a.key
              book_a_title := bm_a.title
              outcome_a := out_a.name
              odds_a := price_a
              point_a := out_a.point
              book_b := bm_b.key
              book_b_title := bm_b.title
              outcome_b := out_b.name
              odds_b := price_b
              point_b := out_b.point
              profit_pct := profit
              implied_sum := imp_sum
              player_name := none
              is_prop := false : ArbBet }]
          else acc
        else acc)
      []

/-- `_find_market_arbs` (ev.py lines 434-521). -/
def find_market_arbs (event : Event) (market_key : String)
    (min_profit_pct : ℚ)
    (dfs_books : Option (List (String × ℚ))) : List ArbBet :=
  (build_arb_line_groups event market_key).foldl
    (fun acc grp =>
      acc ++ arbs_of_line_group event market_key grp.2 min_profit_pct dfs_books)
    []

/-- `find_arb_bets` (ev.py lines 415-431). -/
def find_arb_bets (events : List Event) (min_profit_pct : ℚ)
    (dfs_books : Option (List (String × ℚ))) : List ArbBet :=
  let arbs := events.foldl
    (fun acc event =>
      ((discover_market_keys event).filter
        (fun k => k ∈ [("h2h" : String), ("spreads"), ("totals")])).foldl
        (fun acc2 mk => acc2 ++ find_market_arbs event mk min_profit_pct dfs_books)
        acc)
    []
  sort_desc (fun a => a.profit_pct) arbs

/-- The collection loop of `_find_spread_middles` (ev.py lines 643-653):
team name to list of `(point, price, bookmaker)`. -/
def build_team_lines (event : Event) (market_key : String)
    (dfs_books : Option (List (String × ℚ))) :
    List (String × List (ℚ × ℚ × Bookmaker)) :=
  event.bookmakers.foldl
    (fun acc bm =>
      match get_market_outcomes bm market_key with
      | none => acc
      | some outcomes =>
          if outcomes = [] then acc
          else
            outcomes.foldl
              (fun acc2 out =>
                match out.point with
                | none => acc2
                | some pt =>
                    upsert_append out.name
                      (pt, effective_price out bm dfs_books, bm) acc2)
              acc)
    []

/-- `_find_spread_middles` (ev.py lines 634-700). -/
def find_spread_middles (event : Event) (market_key : String)
    (min_window max_combined_cost : ℚ)
    (dfs_books : Option (List (String × ℚ))) : Option (List MiddleBet) :=
  let team_lines := build_team_lines event market_key dfs_books
  (all_ordered_pairs team_lines).foldlM
    (fun acc pr =>
      let team_a := pr.1.1
      let team_b := pr.2.1
      pr.1.2.foldlM
        (fun acc2 la =>
          pr.2.2.foldlM
            (fun acc3 lb =>
              let pt_a := la.1
              let price_a := la.2.1
              let bm_a := la.2.2
              let pt_b := lb.1
              let price_b := lb.2.1
              let bm_b := lb.2.2
              if bm_a.key = bm_b.key then pure acc3
              else
                let window := pt_a + pt_b
                if window < min_window then pure acc3
                else
                  let imp_a := american_to_implied_prob price_a
                  let imp_b := american_to_implied_prob price_b
                  let cost := imp_a + imp_b
                  if max_combined_cost < cost then pure acc3
                  else do
                    let hp := estimate_middle_hit_prob window event.sport_key market_key
                    let ev_pct ← compute_middle_ev price_a price_b hp
                    pure (acc3 ++ [{
                      sport_key := event.sport_key
                      event_id := event.id
                      home_team := event.home_team
                      away_team := event.away_team
                      market := market_key
                      book_a := bm_a.key
                      book_a_title := bm_a.title
                      line_a := pt_a
                      odds_a := price_a
                      outcome_a := team_a
                      book_b := bm_b.key
                      book_b_title := bm_b.title
                      line_b := pt_b
                      odds_b := price_b
                      outcome_b := team_b
                      middle_low := min (-pt_a) pt_b
                      middle_high := max (-pt_a) pt_b
                      window_size := window
                      combined_cost := cost
                      hit_prob := hp
                      ev_percentage := ev_pct
                      player_name := none
                      is_prop := false : MiddleBet }]))
            acc2)
        acc)
    []

/-- The collection loop of `_find_total_middles` (ev.py lines 712-726). -/
def build_overs_unders (event : Event) (market_key : String)
    (dfs_books : Option (List (String × ℚ))) :
    List (ℚ × ℚ × Bookmaker) × List (ℚ × ℚ × Bookmaker) :=
  event.bookmakers.foldl
    (fun acc bm =>
      match get_market_outcomes bm market_key with
      | none => acc
      | some outcomes =>
          if outcomes = [] then acc
          else
            outcomes.foldl
              (fun acc2 out =>
                match out.point with
                | none => acc2
                | some pt =>
                    let price := effective_price out bm dfs_books
                    if out.name = ("Over") then
                      (acc2.1 ++ [(pt, price, bm)], acc2.2)
                    else if out.name = ("Under") then
                      (acc2.1, acc2.2 ++ [(pt, price, bm)])
                    else acc2)
              acc)
    ([], [])

/-- The Over-by-Under scan shared by `_find_total_middles` (ev.py lines
728-764) and the per-player scan of `_find_prop_market_middles` (ev.py lines
924-962): `player` is `none` for game totals. -/
def total_middle_scan (event : Event) (market_key : String)
    (overs unders : List (ℚ × ℚ × Bookmaker)) (min_window max_combined_cost : ℚ)
    (player : Option String) (acc0 : List MiddleBet) : Option (List MiddleBet) :=
  overs.foldlM
    (fun acc ov =>
      unders.foldlM
        (fun acc2 un =>
          let ov_pt := ov.1
          let ov_price := ov.2.1
          let ov_bm := ov.2.2
          let un_pt := un.1
          let un_price := un.2.1
          let un_bm := un.2.2
          if ov_bm.key = un_bm.key then pure acc2
          else
            let window := un_pt - ov_pt
            if window < min_window then pure acc2
            else
              let imp_ov := american_to_implied_prob ov_price
              let imp_un := american_to_implied_prob un_price
              let cost := imp_ov + imp_un
              if max_combined_cost < cost then pure acc2
              else do
                let hp := estimate_middle_hit_prob window event.sport_key market_key
                let ev_pct ← compute_middle_ev ov_price un_price hp
                pure (acc2 ++ [{
                  sport_key := event.sport_key
                  event_id := event.id
                  home_team := event.home_team
                  away_team := event.away_team
                  market := market_key
                  book_a := ov_bm.key
                  book_a_title := ov_bm.title
                  line_a := ov_pt
                  odds_a := ov_price
                  outcome_a := ("Over")
                  book_b := un_bm.key
                  book_b_title := un_bm.title
                  line_b := un_pt
                  odds_b := un_price
                  outcome_b := ("Under")
                  middle_low := ov_pt
                  middle_high := un_pt
                  window_size := window
                  combined_cost := cost
                  hit_prob := hp
                  ev_percentage := ev_pct
                  player_name := player
                  is_prop := player.isSome : MiddleBet }]))
        acc)
    acc0

/-- `_find_total_middles` (ev.py lines 703-764). -/
def find_total_middles (event : Event) (market_key : String)
    (min_window max_combined_cost : ℚ)
    (dfs_books : Option (List (String × ℚ))) : Option (List MiddleBet) :=
  let ou := build_overs_unders event market_key dfs_books
  total_middle_scan event market_key ou.1 ou.2 min_window max_combined_cost none []

/-- `_find_market_middles` (ev.py lines 619-631). -/
def find_market_middles (event : Event) (market_key : String)
    (min_window max_combined_cost : ℚ)
    (dfs_books : Option (List (String × ℚ))) : Option (List MiddleBet) :=
  if str_contains market_key ("spread") then
    find_spread_middles event market_key min_window max_combined_cost dfs_books
  else if str_contains market_key ("total") then
    find_total_middles event market_key min_window max_combined_cost dfs_books
  else pure []

/-- `find_middle_bets` (ev.py lines 595-616). -/
def find_middle_bets (events : List Event) (min_window max_combined_cost : ℚ)
    (dfs_books : Option (List (String × ℚ))) : Option (List MiddleBet) := do
  let middles ← events.foldlM
    (fun acc event =>
      (((discover_market_keys event).filter
        (fun k => k ∈ [("spreads" : String), ("totals")])).foldlM
        (fun acc2 mk =>
          (find_market_middles event mk min_window max_combined_cost dfs_books).map
            (fun l => acc2 ++ l))
        acc))
    []
  pure (sort_desc (fun m => m.ev_percentage) middles)

/-- The grouping loop of `_find_prop_market_arbs` (ev.py lines 799-812):
`(player, point)` to side name to `(price, bm, out)` entries, skipping
quotes with a falsy description or a missing line. -/
def build_prop_arb_groups (event : Event) (market_key : String)
    (dfs_books : Option (List (String × ℚ))) :
    List ((Option String × Option ℚ) ×
      List (String × List (ℚ × Bookmaker × OutcomeOdds))) :=
  event.bookmakers.foldl
    (fun acc bm =>
      match get_market_outcomes bm market_key with
      | none => acc
      | some outcomes =>
          if outcomes = [] then acc
          else
            outcomes.foldl
              (fun acc2 out =>
                if !(descr_truthy out) || out.point.isNone then acc2
                else
                  upsert_append2 (out.description, out.point) out.name
                    (effective_price out bm dfs_books, bm, out) acc2)
              acc)
    []

/-- The per-group body of `_find_prop_market_arbs` (ev.py lines 814-860). -/
def prop_arbs_of_group (event : Event) (market_key : String)
    (sides : List (String × List (ℚ × Bookmaker × OutcomeOdds)))
    (min_profit_pct : ℚ) : List ArbBet :=
  if sides.length < 2 then []
  else
    let best_per_side :=
      sides.foldl
        (fun best kv =>
          kv.2.foldl
            (fun best2 e => upsert_best kv.1 e.1 e.2.1 e.2.2 best2)
            best)
        []
    (all_ordered_pairs best_per_side).foldl
      (fun acc pr =>
        let price_a := pr.1.2.1
        let bm_a := pr.1.2.2.1
        let out_a := pr.1.2.2.2
        let price_b := pr.2.2.1
        let bm_b := pr.2.2.2.1
        let out_b := pr.2.2.2.2
        let imp_a := american_to_implied_prob price_a
        let imp_b := american_to_implied_prob price_b
        let imp_sum := imp_a + imp_b
        if imp_sum < 1 then
          let profit := (1 / imp_sum - 1) * 100
          if min_profit_pct ≤ profit then
            acc ++ [{
              sport_key := event.sport_key
              event_id := event.id
              home_team := event.home_team
              away_team := event.away_team
              market := market_key
              book_a := bm_a.key
              book_a_title := bm_a.title
              outcome_a := out_a.name
              odds_a := price_a
              point_a := out_a.point
              book_b := bm_b.key
              book_b_title := bm_b.title
              outcome_b := out_b.name
              odds_b := price_b
              point_b := out_b.point
              profit_pct := profit
              implied_sum := imp_sum
              player_name := out_a.description
              is_prop := true : ArbBet }]
          else acc
        else acc)
      []

/-- `_find_prop_market_arbs` (ev.py lines 790-860). -/
def find_prop_market_arbs (event : Event) (market_key : String)
    (min_profit_pct : ℚ)
    (dfs_books : Option (List (String × ℚ))) : List ArbBet :=
  (build_prop_arb_groups event market_key dfs_books).foldl
    (fun acc grp =>
      acc ++ prop_arbs_of_group event market_key grp.2 min_profit_pct)
    []

/-- `find_prop_arb_bets` (ev.py lines 770-787). -/
def find_prop_arb_bets (events : List Event) (min_profit_pct : ℚ)
    (dfs_books : Option (List (String × ℚ))) : List ArbBet :=
  let arbs := events.foldl
    (fun acc event =>
      (discover_market_keys event).foldl
        (fun acc2 mk =>
          acc2 ++ find_prop_market_arbs event mk min_profit_pct dfs_books)
        acc)
    []
  sort_desc (fun a => a.profit_pct) arbs

/-- The collection loop of `_find_prop_market_middles` (ev.py lines 897-915):
player to Over entries and player to Under entries, skipping quotes with a
falsy description or a missing line. -/
def build_player_overs_unders (event : Event) (market_key : String)
    (dfs_books : Option (List (String × ℚ))) :
    List (Option String × List (ℚ × ℚ × Bookmaker)) ×
      List (Option String × List (ℚ × ℚ × Bookmaker)) :=
  event.bookmakers.foldl
    (fun acc bm =>
      match get_market_outcomes bm market_key with
      | none => acc
      | some outcomes =>
          if outcomes = [] then acc
          else
            outcomes.foldl
              (fun acc2 out =>
                if !(descr_truthy out) || out.point.isNone then acc2
                else
                  let pt := out.point.getD 0
                  let price := effective_price out bm dfs_books
                  if out.name = ("Over") then
                    (upsert_append out.description (pt, price, bm) acc2.1, acc2.2)
                  else if out.name = ("Under") then
                    (acc2.1, upsert_append out.description (pt, price, bm) acc2.2)
                  else acc2)
              acc)
    ([], [])

/-- `_find_prop_market_middles` (ev.py lines 887-962). -/
def find_prop_market_middles (event : Event) (market_key : String)
    (min_window max_combined_cost : ℚ)
    (dfs_books : Option (List (String × ℚ))) : Option (List MiddleBet) :=
  let built := build_player_overs_unders event market_key dfs_books
  built.1.foldlM
    (fun acc kv =>
      match alist_lookup kv.1 built.2 with
      | none => pure acc
      | some unders =>
          total_middle_scan event market_key kv.2 unders min_window
            max_combined_cost kv.1 acc)
    []

/-- `find_prop_middle_bets` (ev.py lines 866-884). -/
def find_prop_middle_bets (events : List Event) (min_window max_combined_cost : ℚ)
    (dfs_books : Option (List (String × ℚ))) : Option (List MiddleBet) := do
  let middles ← events.foldlM
    (fun acc event =>
      (discover_market_keys event).foldlM
        (fun acc2 mk =>
          (find_prop_market_middles event mk min_window max_combined_cost
            dfs_books).map (fun l => acc2 ++ l))
        acc)
    []
  pure (sort_desc (fun m => m.ev_percentage) middles)

/-- `find_ev_bets` (ev.py lines 176-208). -/
def find_ev_bets (events : List Event) (selected_books : Option (List String))
    (ev_threshold : ℚ) (is_props : Bool)
    (dfs_books : Option (List (String × ℚ)))
    (odds_range : Option (ℚ × ℚ)) (now : ℕ) : Option (List EVBet) := do
  let ev_bets ← events.foldlM
    (fun acc event =>
      (if is_props then
        find_prop_ev event now selected_books ev_threshold dfs_books odds_range
      else
        find_game_ev event now selected_books ev_threshold dfs_books odds_range).map
        (fun l => acc ++ l))
    []
  pure (sort_desc (fun b => b.ev_percentage) ev_bets)

/-- The quotes the prop-EV grouping loop keeps (ev.py lines 284-285): a
truthy player description. -/
def prop_ev_keep (o : OutcomeOdds) : Bool :=
  descr_truthy o

/-- The quotes the prop-arb and prop-middle grouping loops keep (ev.py lines
806-807 and 905-906): a truthy player description and a present line. -/
def prop_line_keep (o : OutcomeOdds) : Bool :=
  descr_truthy o && o.point.isSome

/-- One bookmaker with only its kept quotes. -/
def filter_bookmaker (keep : OutcomeOdds → Bool) (bm : Bookmaker) : Bookmaker :=
  { bm with
    markets := bm.markets.map
      (fun m => { m with outcomes := m.outcomes.filter keep }) }

/-- An event with only its kept quotes. -/
def filter_event (keep : OutcomeOdds → Bool) (event : Event) : Event :=
  { event with bookmakers := event.bookmakers.map (filter_bookmaker keep) }

/-! ### Concrete scenarios used as evidence for individual claims -/

/-- A quote with only a name and a price (moneyline shape). -/
def ml_quote (n : String) (p : ℚ) : OutcomeOdds :=
  { name := n, price := p }

/-- A quote with a name, a price and a line. -/
def line_quote (n : String) (p : ℚ) (pt : ℚ) : OutcomeOdds :=
  { name := n, price := p, point := some pt }

/-- A bookmaker with a single market. -/
def one_market_bm (k t mk : String) (outs : List OutcomeOdds) : Bookmaker :=
  { key := k, title := t, markets := [{ key := mk, outcomes := outs }] }

/-- C1's failing input: a two-sided moneyline group in which `prizepicks`
contributes raw quotes, aggregated once without and once with a dfs override
for `prizepicks`. -/
def c1_book_outcomes :
    List ((String × Option ℚ) × List (Bookmaker × OutcomeOdds)) :=
  [((("TeamA"), none),
    [(one_market_bm ("fanduel") ("FanDuel") ("h2h") [], ml_quote ("TeamA") (-110)),
     (one_market_bm ("draftkings") ("DraftKings") ("h2h") [], ml_quote ("TeamA") (-108)),
     (one_market_bm ("prizepicks") ("PrizePicks") ("h2h") [], ml_quote ("TeamA") (-200))]),
   ((("TeamB"), none),
    [(one_market_bm ("fanduel") ("FanDuel") ("h2h") [], ml_quote ("TeamB") (-110)),
     (one_market_bm ("draftkings") ("DraftKings") ("h2h") [], ml_quote ("TeamB") (-112)),
     (one_market_bm ("prizepicks") ("PrizePicks") ("h2h") [], ml_quote ("TeamB") (160))])]

/-- C2's failing input: three books quoting totals at 220.5 only. -/
def c2_event_single : Event :=
  { id := ("e2"), sport_key := ("basketball_nba"), home_team := ("H"),
    away_team := ("W"),
    bookmakers :=
      [one_market_bm ("fanduel") ("FanDuel") ("totals")
        [line_quote ("Over") (-110) (441/2), line_quote ("Under") (-110) (441/2)],
       one_market_bm ("draftkings") ("DraftKings") ("totals")
        [line_quote ("Over") (-110) (441/2), line_quote ("Under") (-110) (441/2)],
       one_market_bm ("betmgm") ("BetMGM") ("totals")
        [line_quote ("Over") (-110) (441/2), line_quote ("Under") (-110) (441/2)]] }

/-- C2's failing input: the same three books plus three more quoting the
alternate line 221.5 in the same `totals` market. -/
def c2_event_both : Event :=
  { c2_event_single with
    bookmakers := c2_event_single.bookmakers ++
      [one_market_bm ("betrivers") ("BetRivers") ("totals")
        [line_quote ("Over") (-110) (443/2), line_quote ("Under") (-110) (443/2)],
       one_market_bm ("caesars") ("Caesars") ("totals")
        [line_quote ("Over") (-110) (443/2), line_quote ("Under") (-110) (443/2)],
       one_market_bm ("pinnacle") ("Pinnacle") ("totals")
        [line_quote ("Over") (-110) (443/2), line_quote ("Under") (-110) (443/2)]] }

/-- C3's failing input: book A lists each 220.5 side twice, so every outcome
has 3 quote entries from only 2 distinct bookmakers. -/
def c3_event : Event :=
  { id := ("e3"), sport_key := ("basketball_nba"), home_team := ("H"),
    away_team := ("W"),
    bookmakers :=
      [one_market_bm ("book_a") ("Book A") ("totals")
        [line_quote ("Over") (-110) (441/2), line_quote ("Over") (-110) (441/2),
         line_quote ("Under") (-110) (441/2), line_quote ("Under") (-110) (441/2)],
       one_market_bm ("book_b") ("Book B") ("totals")
        [line_quote ("Over") (200) (441/2), line_quote ("Under") (-110) (441/2)]] }

/-- C8's input, as the claim states it: Over 235.5 at +108 on book A,
Under 231.5 at +108 on book B. -/
def c8_event : Event :=
  { id := ("crossline1"), sport_key := ("basketball_nba"),
    home_team := ("Lakers"), away_team := ("Celtics"),
    bookmakers :=
      [one_market_bm ("book_a") ("Book A") ("totals")
        [line_quote ("Over") (108) (471/2)],
       one_market_bm ("book_b") ("Book B") ("totals")
        [line_quote ("Under") (108) (463/2)]] }

/-- C8's input with the lines attached the other way: Over 231.5 at +108 on
book A, Under 235.5 at +108 on book B (the pair that actually middles). -/
def c8_event_swapped : Event :=
  { id := ("crossline2"), sport_key := ("basketball_nba"),
    home_team := ("Lakers"), away_team := ("Celtics"),
    bookmakers :=
      [one_market_bm ("book_a") ("Book A") ("totals")
        [line_quote ("Over") (108) (463/2)],
       one_market_bm ("book_b") ("Book B") ("totals")
        [line_quote ("Under") (108) (471/2)]] }

/-- C9's two-sided group with every quote at −110 except the distinguished
first book on side `A`, whose price is the parameter. -/
def c9_book_outcomes (p : ℚ) :
    List (String × List (Bookmaker × OutcomeOdds)) :=
  [(("A"),
    [(one_market_bm ("bx") ("BX") ("h2h") [], ml_quote ("A") p),
     (one_market_bm ("by") ("BY") ("h2h") [], ml_quote ("A") (-110)),
     (one_market_bm ("bz") ("BZ") ("h2h") [], ml_quote ("A") (-110))]),
   (("B"),
    [(one_market_bm ("bx") ("BX") ("h2h") [], ml_quote ("B") (-110)),
     (one_market_bm ("by") ("BY") ("h2h") [], ml_quote ("B") (-110)),
     (one_market_bm ("bz") ("BZ") ("h2h") [], ml_quote ("B") (-110))])]

end OddsCli

namespace OddsCli

/-! ### Claims about the conversion primitives -/

/-- C4: the claim's expected sentinel values.  The code instead raises
(`none`) from `american_to_decimal 0` and returns `1` (not `0`) from
`american_to_implied_prob 0`; its own test suite (`TestAmericanToDecimal
.test_zero_odds`, `TestAmericanToImpliedProb.test_zero_odds`) demands the
claimed sentinels, so the code contradicts its tests. -/
theorem zero_odds_sentinels_violated :
    american_to_decimal 0 = none ∧ american_to_implied_prob 0 = 1 := by
  constructor
  · decide
  · show american_to_implied_prob 0 = 1
    unfold american_to_implied_prob
    norm_num

/-- C5: round trip — for every probability `p` strictly between 0 and 1,
`american_to_implied_prob (prob_to_american p) = p` (exactly, over `ℚ`). -/
theorem round_trip_prob_american (p : ℚ) (h0 : 0 < p) (h1 : p < 1) :
    american_to_implied_prob (prob_to_american p) = p := by
  have hne : ¬ (p ≤ 0 ∨ 1 ≤ p) := by
    push_neg
    exact ⟨h0, h1⟩
  have h1p : 0 < 1 - p := by linarith
  have hq : (1 - p) ≠ 0 := ne_of_gt h1p
  have hp0 : p ≠ 0 := ne_of_gt h0
  unfold prob_to_american
  rw [if_neg hne]
  by_cases hh : 1/2 ≤ p
  · rw [if_pos hh]
    have hnum : 0 < p / (1 - p) * 100 := by positivity
    have hlt : -(p / (1 - p)) * 100 < 0 := by
      have heq : -(p / (1 - p)) * 100 = -(p / (1 - p) * 100) := by ring
      rw [heq]
      linarith
    unfold american_to_implied_prob
    rw [if_pos hlt]
    have habs : |(-(p / (1 - p)) * 100)| = p / (1 - p) * 100 := by
      rw [abs_of_neg hlt]
      ring
    rw [habs]
    have hden : p / (1 - p) * 100 + 100 = 100 / (1 - p) := by
      field_simp
      ring
    have hfac : p / (1 - p) * 100 = p * (100 / (1 - p)) := by ring
    have hpos2 : (0:ℚ) < 100 / (1 - p) := by positivity
    rw [hden, hfac, mul_div_assoc, div_self (ne_of_gt hpos2), mul_one]
  · rw [if_neg hh]
    have hnum : 0 < (1 - p) / p * 100 := by positivity
    have hnlt : ¬ ((1 - p) / p * 100 < 0) := by linarith
    unfold american_to_implied_prob
    rw [if_neg hnlt]
    have hden : (1 - p) / p * 100 + 100 = 100 / p := by
      field_simp
      ring
    rw [hden]
    rw [div_div_eq_mul_div, mul_comm, mul_div_assoc, div_self (by norm_num : (100:ℚ) ≠ 0), mul_one]

/-- C5 witness at `p = 1/3` and the favorite side `p = 2/3`. -/
theorem round_trip_prob_american_witness :
    american_to_implied_prob (prob_to_american (1/3)) = 1/3 ∧
      american_to_implied_prob (prob_to_american (2/3)) = 2/3 :=
  ⟨round_trip_prob_american (1/3) (by norm_num) (by norm_num),
   round_trip_prob_american (2/3) (by norm_num) (by norm_num)⟩

/-- C6: `remove_vig` of a list with positive total sums to 1 exactly, and a
list with total exactly 0 is returned unchanged. -/
theorem remove_vig_normalizes (probs : List ℚ) :
    (0 < probs.sum → (remove_vig probs).sum = 1) ∧
      (probs.sum = 0 → remove_vig probs = probs) := by
  have hmap : ∀ (l : List ℚ) (c : ℚ), (l.map (fun p => p / c)).sum = l.sum / c := by
    intro l c
    induction l with
    | nil => simp
    | cons a t ih =>
        simp only [List.map_cons, List.sum_cons, ih]
        ring
  constructor
  · intro hpos
    have hne : probs.sum ≠ 0 := ne_of_gt hpos
    unfold remove_vig
    rw [if_neg hne, hmap, div_self hne]
  · intro hz
    unfold remove_vig
    rw [if_pos hz]

/-- C6 witness: a nonempty list with positive total normalizes to total 1, and
a list with total 0 comes back unchanged. -/
theorem remove_vig_normalizes_witness :
    (remove_vig [1/2, 3/4]).sum = 1 ∧ remove_vig [1, -1] = [1, -1] :=
  ⟨(remove_vig_normalizes [1/2, 3/4]).1 (by norm_num),
   (remove_vig_normalizes [1, -1]).2 (by norm_num)⟩

/-- C7 counterexample: at window `1/2` on `basketball_nba` the code returns
its density `35/1000` (via `max(1, floor(window))`), not
`min(⌊window⌋ * density, 0.30) = 0` as the claim states. -/
theorem middle_hit_prob_floor_claim_false :
    estimate_middle_hit_prob (1/2) ("basketball_nba") ("totals") ≠
      min ((⌊(1/2 : ℚ)⌋ : ℚ) * point_density ("basketball_nba")) (30/100) := by
  have h1 : ((⌊(1/2 : ℚ)⌋ : ℚ)) = 0 := by norm_num
  rw [h1]
  decide

/-- C7 (amended): for every window `w > 0` and every sport key, the middle
detector's hit-probability estimate is `min (max 1 ⌊w⌋ * density) 0.30` where
`density` is the sport's entry in the fixed table (default `0.04`); a window
with `⌊w⌋ = 0` still contributes one landing spot, hence probability
`min density 0.30`. -/
theorem middle_hit_prob_formula (w : ℚ) (sport_key market_key : String)
    (hw : 0 < w) :
    estimate_middle_hit_prob w sport_key market_key =
      min (((max 1 ⌊w⌋ : ℤ) : ℚ) *
        ((POINT_DENSITY.lookup sport_key).getD DEFAULT_POINT_DENSITY)) (30/100) ∧
      (⌊w⌋ = 0 → estimate_middle_hit_prob w sport_key market_key =
        min ((POINT_DENSITY.lookup sport_key).getD DEFAULT_POINT_DENSITY) (30/100)) := by
  have hdef : estimate_middle_hit_prob w sport_key market_key =
      min (((max 1 (Rat.floor w) : ℤ) : ℚ) *
        ((POINT_DENSITY.lookup sport_key).getD DEFAULT_POINT_DENSITY)) (30/100) := rfl
  constructor
  · rw [hdef, rat_floor_eq_floor]
  · intro hfloor
    rw [hdef, rat_floor_eq_floor, hfloor]
    norm_num

/-- C7 witness: window `1/2` on `basketball_nba` has `⌊w⌋ = 0` and yields
hit probability `min density 0.30`. -/
theorem middle_hit_prob_formula_witness :
    estimate_middle_hit_prob (1/2) ("basketball_nba") ("spreads") =
      min ((POINT_DENSITY.lookup ("basketball_nba")).getD DEFAULT_POINT_DENSITY)
        (30/100) :=
  (middle_hit_prob_formula (1/2) ("basketball_nba") ("spreads") (by norm_num)).2
    ((rat_floor_eq_floor (1/2)).symm.trans (by decide))

/-! ### Evidence at concrete inputs -/

/-- C1: the no-vig consensus is NOT invariant under a dfs price-override map —
`_calculate_market_avg_no_vig` prices every entry through `_effective_price`,
so overriding `prizepicks` changes the consensus probabilities. -/
theorem dfs_override_leaks_into_consensus :
    (calculate_market_avg_no_vig c1_book_outcomes
        (some [(("prizepicks"), -130)])).1 ≠
      (calculate_market_avg_no_vig c1_book_outcomes none).1 := by
  decide

/-- C2: quotes at the alternate line 221.5 change the no-vig probability of
Over 220.5 (from 1/2 alone to 1/4 when pooled): `_find_game_ev` normalizes
all lines of a market together. -/
theorem alt_line_quotes_change_no_vig :
    alist_lookup (("Over"), some (441/2))
        (calculate_market_avg_no_vig
          (build_game_book_outcomes c2_event_single ("totals")) none).1 =
      some (1/2) ∧
    alist_lookup (("Over"), some (441/2))
        (calculate_market_avg_no_vig
          (build_game_book_outcomes c2_event_both ("totals")) none).1 =
      some (1/4) := by
  decide

/-- C3 counterexample: with threshold 0, `find_ev_bets` emits a bet from a
totals group although every outcome of the group has quotes from at most 2
distinct bookmakers (book A lists each side twice, and the entry count — not
the bookmaker count — is what the `< 3` guard measures). -/
theorem min_books_bookmaker_claim_false :
    (find_ev_bets [c3_event] none 0 false none none 0).getD [] ≠ [] ∧
      ∀ kv ∈ build_game_book_outcomes c3_event ("totals"),
        (kv.2.map (fun e => e.1.key)).dedup.length ≤ 2 := by
  decide

/-- C8 counterexample: on the claim's own input (Over 235.5 at +108 on book
A, Under 231.5 at +108 on book B) the arbitrage detector indeed returns
nothing, but the middle detector ALSO returns nothing (the window
231.5 − 235.5 is negative), contradicting the claim's "at least one". -/
theorem cross_line_middle_claim_false :
    find_arb_bets [c8_event] (1/10) none = [] ∧
      find_middle_bets [c8_event] (1/2) (27/25) none = some [] := by
  decide

/-- C8 (amended): the cross-line event produces neither an arb nor a middle;
with the Over on the LOWER line (Over 231.5 on A, Under 235.5 on B) the arb
detector still returns nothing and the middle detector returns at least
one opportunity. -/
theorem cross_line_arb_vs_middle :
    find_arb_bets [c8_event] (1/10) none = [] ∧
      find_middle_bets [c8_event] (1/2) (27/25) none = some [] ∧
      find_arb_bets [c8_event_swapped] (1/10) none = [] ∧
      (find_middle_bets [c8_event_swapped] (1/2) (27/25) none).getD [] ≠ [] := by
  decide

/-- `list_min` is a lower bound of the list. -/
theorem list_min_le_of_mem {x : ℕ} {l : List ℕ} (hx : x ∈ l) : list_min l ≤ x := by
  have key : ∀ (t : List ℕ) (init : ℕ),
      t.foldl Nat.min init ≤ init ∧ ∀ y ∈ t, t.foldl Nat.min init ≤ y := by
    intro t
    induction t with
    | nil => intro init; exact ⟨le_refl _, by intro y hy; cases hy⟩
    | cons a t ih =>
        intro init
        have h1 := ih (Nat.min init a)
        constructor
        · exact le_trans h1.1 (Nat.min_le_left _ _)
        · intro y hy
          cases hy with
          | head => exact le_trans h1.1 (Nat.min_le_right _ _)
          | tail _ hmem => exact h1.2 y hmem
  cases l with
  | nil => cases hx
  | cons a t =>
      rcases List.mem_cons.mp hx with h | h
      · rw [h]
        exact (key t a).1
      · exact (key t a).2 x h

/-- C3 (amended): if any outcome of a group has fewer than 3 contributing
quote entries (`book_counts` counts `(bookmaker, quote)` entries, a book
listing the same outcome twice counting twice), the group emits nothing —
for game markets the whole market is suppressed, for props the
`(player, point)` pair is. -/
theorem ev_group_suppressed_below_min_books :
    (∀ (event : Event) (market_key : String) (now : ℕ)
        (selected_books : Option (List String)) (ev_threshold : ℚ)
        (dfs_books : Option (List (String × ℚ))) (odds_range : Option (ℚ × ℚ))
        (k : String × Option ℚ) (c : ℕ),
      (k, c) ∈ (calculate_market_avg_no_vig
          (build_game_book_outcomes event market_key) dfs_books).2 →
      c < 3 →
      find_game_ev_market event market_key now selected_books ev_threshold
        dfs_books odds_range = some []) ∧
    (∀ (event : Event) (market_key : String)
        (pair_outcomes : List ((Option String × String × Option ℚ) ×
          List (Bookmaker × OutcomeOdds)))
        (now : ℕ) (selected_books : Option (List String)) (ev_threshold : ℚ)
        (dfs_books : Option (List (String × ℚ))) (odds_range : Option (ℚ × ℚ))
        (k : Option String × String × Option ℚ) (c : ℕ),
      (k, c) ∈ (calculate_market_avg_no_vig pair_outcomes dfs_books).2 →
      c < 3 →
      find_prop_ev_pair event market_key pair_outcomes now selected_books
        ev_threshold dfs_books odds_range = some []) := by
  constructor
  · intro event market_key now selected_books ev_threshold dfs_books odds_range
      k c hmem hc
    have hcm : c ∈ ((calculate_market_avg_no_vig
        (build_game_book_outcomes event market_key) dfs_books).2).map
          (fun kv => kv.2) :=
      List.mem_map_of_mem _ hmem
    have hlt : list_min (((calculate_market_avg_no_vig
        (build_game_book_outcomes event market_key) dfs_books).2).map
          (fun kv => kv.2)) < 3 :=
      lt_of_le_of_lt (list_min_le_of_mem hcm) hc
    unfold find_game_ev_market
    by_cases hbo : build_game_book_outcomes event market_key = []
    · rw [if_pos hbo]
      rfl
    · rw [if_neg hbo, if_pos hlt]
      rfl
  · intro event market_key pair_outcomes now selected_books ev_threshold
      dfs_books odds_range k c hmem hc
    have hcm : c ∈ ((calculate_market_avg_no_vig pair_outcomes dfs_books).2).map
        (fun kv => kv.2) :=
      List.mem_map_of_mem _ hmem
    have hlt : list_min (((calculate_market_avg_no_vig pair_outcomes
        dfs_books).2).map (fun kv => kv.2)) < 3 :=
      lt_of_le_of_lt (list_min_le_of_mem hcm) hc
    unfold find_prop_ev_pair
    by_cases h2 : pair_outcomes.length < 2
    · rw [if_pos h2]
      rfl
    · rw [if_neg h2, if_pos hlt]
      rfl

/-- C3 witness: a totals market with 2 contributing books (2 entries per
outcome) emits nothing, and a prop pair with 2 entries per outcome emits
nothing. -/
theorem ev_group_suppressed_below_min_books_witness :
    find_game_ev_market
      { id := ("w3"), sport_key := ("basketball_nba"), home_team := ("H"),
        away_team := ("W"),
        bookmakers :=
          [one_market_bm ("book_a") ("Book A") ("totals")
            [line_quote ("Over") (200) (441/2), line_quote ("Under") (-110) (441/2)],
           one_market_bm ("book_b") ("Book B") ("totals")
            [line_quote ("Over") (-110) (441/2), line_quote ("Under") (-110) (441/2)]] }
      ("totals") 0 none 0 none none = some [] ∧
    find_prop_ev_pair
      { id := ("w3p"), sport_key := ("basketball_nba"), home_team := ("H"),
        away_team := ("W"), bookmakers := [] } ("player_points")
      [((some ("LeBron James"), ("Over"), some (51/2)),
        [(one_market_bm ("book_a") ("Book A") ("player_points") [],
          { name := ("Over"), price := 200, point := some (51/2),
            description := some ("LeBron James") }),
         (one_market_bm ("book_b") ("Book B") ("player_points") [],
          { name := ("Over"), price := 190, point := some (51/2),
            description := some ("LeBron James") })]),
       ((some ("LeBron James"), ("Under"), some (51/2)),
        [(one_market_bm ("book_a") ("Book A") ("player_points") [],
          { name := ("Under"), price := -300, point := some (51/2),
            description := some ("LeBron James") }),
         (one_market_bm ("book_b") ("Book B") ("player_points") [],
          { name := ("Under"), price := -280, point := some (51/2),
            description := some ("LeBron James") })])]
      0 none 0 none none = some [] := by
  constructor
  · exact ev_group_suppressed_below_min_books.1 _ _ 0 none 0 none none
      ((("Over"), some (441/2))) 2 (by decide) (by decide)
  · exact ev_group_suppressed_below_min_books.2 _ _ _ 0 none 0 none none
      ((some ("LeBron James"), ("Over"), some (51/2))) 2 (by decide) (by decide)

/-! ### Generic fold / ordered-dictionary lemmas (for the quote-skipping
invariance of the prop detectors) -/

/-- Pointwise-equal step functions fold alike. -/
theorem foldl_congr_fn {α β : Type} (l : List α) (g1 g2 : β → α → β) (init : β)
    (h : ∀ acc x, g1 acc x = g2 acc x) : l.foldl g1 init = l.foldl g2 init := by
  induction l generalizing init with
  | nil => rfl
  | cons x xs ih => simp only [List.foldl_cons, h, ih]

/-- A fold commutes with a function `F` that commutes with each step. -/
theorem foldl_map_rel {α β γ : Type} (F : β → γ) (l : List α)
    (g' : γ → α → γ) (g : β → α → β) (init : β)
    (h : ∀ acc x, g' (F acc) x = F (g acc x)) :
    l.foldl g' (F init) = F (l.foldl g init) := by
  induction l generalizing init with
  | nil => rfl
  | cons x xs ih => simp only [List.foldl_cons, h, ih]

/-- Folding a step that ignores dropped elements over a filtered list equals
folding it over the whole list. -/
theorem foldl_filter_skip {α β : Type} (keep : α → Bool) (g : β → α → β)
    (h : ∀ acc x, keep x = false → g acc x = acc) (l : List α) (init : β) :
    (l.filter keep).foldl g init = l.foldl g init := by
  induction l generalizing init with
  | nil => rfl
  | cons x xs ih =>
      by_cases hk : keep x
      · rw [List.filter_cons_of_pos hk, List.foldl_cons, List.foldl_cons, ih]
      · rw [List.filter_cons_of_neg (by simpa using hk), List.foldl_cons,
          h init x (by simpa using hk), ih]

/-- The source's `if not outcomes: continue` before a fold is redundant. -/
theorem foldl_if_empty {α β : Type} [DecidableEq α] (l : List α) (g : β → α → β) (init : β) :
    (if l = [] then init else l.foldl g init) = l.foldl g init := by
  cases l with
  | nil => rfl
  | cons x xs => rfl

/-- Pointwise-equal step functions fold alike in the `Option` monad. -/
theorem foldlM_opt_congr {α β : Type} (l : List α) (g1 g2 : β → α → Option β)
    (init : β) (h : ∀ acc x, g1 acc x = g2 acc x) :
    l.foldlM g1 init = l.foldlM g2 init := by
  induction l generalizing init with
  | nil => rfl
  | cons x xs ih =>
      simp only [List.foldlM_cons, h]
      cases g2 init x with
      | none => rfl
      | some b => simpa using ih b

/-- `foldlM` over a mapped list. -/
theorem foldlM_opt_map {α γ β : Type} (l : List α) (f : α → γ)
    (g : β → γ → Option β) (init : β) :
    (l.map f).foldlM g init = l.foldlM (fun acc x => g acc (f x)) init := by
  induction l generalizing init with
  | nil => rfl
  | cons x xs ih =>
      simp only [List.map_cons, List.foldlM_cons]
      cases g init (f x) with
      | none => rfl
      | some b => simpa using ih b

/-- `upsert_append` commutes with mapping the stored values. -/
theorem upsert_append_map {K A B : Type} [DecidableEq K] (f : A → B) (k : K)
    (v : A) (l : List (K × List A)) :
    upsert_append k (f v) (l.map (fun kv => (kv.1, kv.2.map f))) =
      (upsert_append k v l).map (fun kv => (kv.1, kv.2.map f)) := by
  induction l with
  | nil => rfl
  | cons kv rest ih =>
      by_cases h : kv.1 = k
      · simp [upsert_append, h]
      · simp [upsert_append, h, ih]

/-- `upsert_append2` commutes with mapping the stored values. -/
theorem upsert_append2_map {K1 K2 A B : Type} [DecidableEq K1] [DecidableEq K2]
    (f : A → B) (k1 : K1) (k2 : K2) (v : A)
    (l : List (K1 × List (K2 × List A))) :
    upsert_append2 k1 k2 (f v)
        (l.map (fun kv => (kv.1, kv.2.map (fun kv2 => (kv2.1, kv2.2.map f))))) =
      (upsert_append2 k1 k2 v l).map
        (fun kv => (kv.1, kv.2.map (fun kv2 => (kv2.1, kv2.2.map f)))) := by
  induction l with
  | nil => rfl
  | cons kv rest ih =>
      by_cases h : kv.1 = k1
      · simp [upsert_append2, h, upsert_append_map]
      · simp [upsert_append2, h, ih]

/-- `upsert_best` commutes with relabeling the stored bookmaker. -/
theorem upsert_best_map {K : Type} [DecidableEq K] (f : Bookmaker → Bookmaker)
    (k : K) (price : ℚ) (bm : Bookmaker) (out : OutcomeOdds)
    (l : List (K × (ℚ × Bookmaker × OutcomeOdds))) :
    upsert_best k price (f bm) out
        (l.map (fun kv => (kv.1, (kv.2.1, f kv.2.2.1, kv.2.2.2)))) =
      (upsert_best k price bm out l).map
        (fun kv => (kv.1, (kv.2.1, f kv.2.2.1, kv.2.2.2))) := by
  induction l with
  | nil => rfl
  | cons kv rest ih =>
      by_cases h : kv.1 = k
      · by_cases hp : kv.2.1 < price
        · simp [upsert_best, h, hp]
        · simp [upsert_best, h, hp]
      · simp [upsert_best, h, ih]

/-- `alist_lookup` after mapping the stored values. -/
theorem alist_lookup_map_val {K A B : Type} [DecidableEq K] (f : A → B) (k : K)
    (l : List (K × A)) :
    alist_lookup k (l.map (fun kv => (kv.1, f kv.2))) =
      (alist_lookup k l).map f := by
  induction l with
  | nil => rfl
  | cons kv rest ih =>
      by_cases h : kv.1 = k
      · simp [alist_lookup, h]
      · simp [alist_lookup, h, ih]

/-- `all_ordered_pairs` commutes with `map`. -/
theorem all_ordered_pairs_map {A B : Type} (f : A → B) (l : List A) :
    all_ordered_pairs (l.map f) =
      (all_ordered_pairs l).map (fun pr => (f pr.1, f pr.2)) := by
  induction l with
  | nil => rfl
  | cons x xs ih => simp [all_ordered_pairs, ih, List.map_map, Function.comp]

/-- `_get_market_outcomes` on a quote-filtered bookmaker. -/
theorem get_market_outcomes_filter (keep : OutcomeOdds → Bool)
    (bm : Bookmaker) (mk : String) :
    get_market_outcomes (filter_bookmaker keep bm) mk =
      (get_market_outcomes bm mk).map (fun os => os.filter keep) := by
  unfold get_market_outcomes filter_bookmaker
  generalize bm.markets = ms
  induction ms with
  | nil => rfl
  | cons m rest ih =>
      simp only [List.map_cons]
      unfold get_market_outcomes.find_in_markets
      by_cases h : m.key = mk
      · simp [h]
      · simp only [h]
        simpa using ih

/-- Market-key discovery ignores quote filtering. -/
theorem discover_filter_event (keep : OutcomeOdds → Bool) (event : Event) :
    discover_market_keys (filter_event keep event) = discover_market_keys event := by
  unfold discover_market_keys filter_event
  simp only [List.foldl_map]
  apply foldl_congr_fn
  intro acc bm
  unfold filter_bookmaker
  simp only [List.foldl_map]

/-- `_effective_price` reads only the bookmaker's key. -/
theorem effective_price_key (o : OutcomeOdds) (bm bm' : Bookmaker)
    (h : bm'.key = bm.key) (dfs : Option (List (String × ℚ))) :
    effective_price o bm' dfs = effective_price o bm dfs := by
  unfold effective_price
  cases dfs with
  | none => rfl
  | some m => rw [h]

/-- Relabel the bookmaker stored beside every quote of a one-level group
dictionary (value shape of `_calculate_market_avg_no_vig` input). -/
def relabel_entries {K : Type} (f : Bookmaker → Bookmaker)
    (l : List (K × List (Bookmaker × OutcomeOdds))) :
    List (K × List (Bookmaker × OutcomeOdds)) :=
  l.map (fun kv => (kv.1, kv.2.map (fun e => (f e.1, e.2))))

/-- Relabel the bookmakers inside a two-level pair dictionary (value shape of
`_find_prop_ev`'s `pairs`). -/
def relabel_pairs {K1 K2 : Type} (f : Bookmaker → Bookmaker)
    (l : List (K1 × List (K2 × List (Bookmaker × OutcomeOdds)))) :
    List (K1 × List (K2 × List (Bookmaker × OutcomeOdds))) :=
  l.map (fun kv => (kv.1, kv.2.map (fun kv2 => (kv2.1, kv2.2.map (fun e => (f e.1, e.2))))))

/-- Grouping the quotes of the filtered event is grouping the quotes of the
original event, with each stored bookmaker quote-filtered. -/
theorem build_prop_pairs_filter (event : Event) (mk : String) :
    build_prop_pairs (filter_event prop_ev_keep event) mk =
      relabel_pairs (filter_bookmaker prop_ev_keep) (build_prop_pairs event mk) := by
  unfold build_prop_pairs filter_event
  rw [List.foldl_map]
  refine foldl_map_rel (relabel_pairs (filter_bookmaker prop_ev_keep))
    event.bookmakers _ _ [] ?_
  intro acc bm
  rw [get_market_outcomes_filter]
  cases hgo : get_market_outcomes bm mk with
  | none => rfl
  | some os =>
      simp only [Option.map_some']
      rw [foldl_if_empty, foldl_if_empty,
        foldl_filter_skip prop_ev_keep _
          (by
            intro a2 out hk
            simp only [prop_ev_keep] at hk
            simp [hk])]
      refine foldl_map_rel _ os _ _ acc ?_
      intro a2 out
      by_cases hd : descr_truthy out
      · simp only [hd, if_true]
        exact upsert_append2_map
          (fun e => (filter_bookmaker prop_ev_keep e.1, e.2)) _ _ (bm, out) a2
      · simp [hd]

/-- The no-vig consensus ignores a key-preserving bookmaker relabeling. -/
theorem calc_relabel {K : Type} [DecidableEq K] (f : Bookmaker → Bookmaker)
    (hkey : ∀ bm, (f bm).key = bm.key)
    (bo : List (K × List (Bookmaker × OutcomeOdds)))
    (dfs : Option (List (String × ℚ))) :
    calculate_market_avg_no_vig (relabel_entries f bo) dfs =
      calculate_market_avg_no_vig bo dfs := by
  unfold calculate_market_avg_no_vig relabel_entries
  have hfold :
      (bo.map (fun kv => (kv.1, kv.2.map (fun e => (f e.1, e.2))))).foldl
        (fun acc kv =>
          kv.2.foldl
            (fun acc2 e =>
              upsert_append kv.1
                (american_to_implied_prob (effective_price e.2 e.1 dfs)) acc2)
            acc)
        [] =
      bo.foldl
        (fun acc kv =>
          kv.2.foldl
            (fun acc2 e =>
              upsert_append kv.1
                (american_to_implied_prob (effective_price e.2 e.1 dfs)) acc2)
            acc)
        [] := by
    rw [List.foldl_map]
    apply foldl_congr_fn
    intro acc kv
    rw [List.foldl_map]
    apply foldl_congr_fn
    intro acc2 e
    rw [effective_price_key e.2 e.1 (f e.1) (hkey e.1) dfs]
  rw [hfold]

/-- Bet emission ignores a key- and title-preserving bookmaker relabeling and
reads only the scalar fields of the event. -/
theorem emit_relabel {K : Type} [DecidableEq K] (f : Bookmaker → Bookmaker)
    (hkey : ∀ bm, (f bm).key = bm.key)
    (htitle : ∀ bm, (f bm).title = bm.title)
    (e1 e2 : Event) (h1 : e1.sport_key = e2.sport_key) (h2 : e1.id = e2.id)
    (h3 : e1.home_team = e2.home_team) (h4 : e1.away_team = e2.away_team)
    (mk : String) (bo : List (K × List (Bookmaker × OutcomeOdds)))
    (nv : List (K × ℚ)) (cnt : List (K × ℕ)) (now : ℕ)
    (sel : Option (List String)) (th : ℚ) (dfs : Option (List (String × ℚ)))
    (ip : Bool) (rng : Option (ℚ × ℚ)) :
    emit_ev_bets e1 mk (relabel_entries f bo) nv cnt now sel th dfs ip rng =
      emit_ev_bets e2 mk bo nv cnt now sel th dfs ip rng := by
  unfold emit_ev_bets relabel_entries
  rw [foldlM_opt_map]
  apply foldlM_opt_congr
  intro acc kv
  simp only []
  cases alist_lookup kv.1 nv with
  | none => rfl
  | some nvp =>
      simp only []
      by_cases hnv : nvp ≤ 0 ∨ 1 ≤ nvp
      · simp [hnv]
      · simp only [hnv, if_false]
        rw [foldlM_opt_map]
        apply foldlM_opt_congr
        intro acc2 e
        have hep : ∀ (o : OutcomeOdds) (bm : Bookmaker),
            effective_price o (f bm) dfs = effective_price o bm dfs :=
          fun o bm => effective_price_key o bm (f bm) (hkey bm) dfs
        simp only [hkey, htitle, h1, h2, h3, h4, hep]

/-- Pair-level prop EV ignores the relabeling and the event's quote lists. -/
theorem find_prop_ev_pair_relabel (f : Bookmaker → Bookmaker)
    (hkey : ∀ bm, (f bm).key = bm.key)
    (htitle : ∀ bm, (f bm).title = bm.title)
    (e1 e2 : Event) (h1 : e1.sport_key = e2.sport_key) (h2 : e1.id = e2.id)
    (h3 : e1.home_team = e2.home_team) (h4 : e1.away_team = e2.away_team)
    (mk : String)
    (po : List ((Option String × String × Option ℚ) × List (Bookmaker × OutcomeOdds)))
    (now : ℕ) (sel : Option (List String)) (th : ℚ)
    (dfs : Option (List (String × ℚ))) (rng : Option (ℚ × ℚ)) :
    find_prop_ev_pair e1 mk (relabel_entries f po) now sel th dfs rng =
      find_prop_ev_pair e2 mk po now sel th dfs rng := by
  unfold find_prop_ev_pair
  have hlen : (relabel_entries f po).length = po.length := List.length_map _ _
  rw [hlen, calc_relabel f hkey po dfs]
  by_cases hl : po.length < 2
  · simp [hl]
  · simp only [hl, if_false]
    by_cases hmin : list_min (((calculate_market_avg_no_vig po dfs).2).map
        (fun kv => kv.2)) < 3
    · simp [hmin]
    · simp only [hmin, if_false]
      exact emit_relabel f hkey htitle e1 e2 h1 h2 h3 h4 mk po _ _ now sel th dfs
        true rng

/-- C10, EV part: the prop EV detector is unchanged when every quote with a
falsy player description is removed from the input event. -/
theorem find_prop_ev_filter (event : Event) (now : ℕ)
    (sel : Option (List String)) (th : ℚ) (dfs : Option (List (String × ℚ)))
    (rng : Option (ℚ × ℚ)) :
    find_prop_ev (filter_event prop_ev_keep event) now sel th dfs rng =
      find_prop_ev event now sel th dfs rng := by
  unfold find_prop_ev
  rw [discover_filter_event]
  apply foldlM_opt_congr
  intro acc mk
  rw [build_prop_pairs_filter]
  unfold relabel_pairs
  rw [foldlM_opt_map]
  have hinner :
      (build_prop_pairs event mk).foldlM
        (fun acc2 pr =>
          (find_prop_ev_pair (filter_event prop_ev_keep event) mk
            (pr.2.map (fun kv2 => (kv2.1, kv2.2.map
              (fun e => (filter_bookmaker prop_ev_keep e.1, e.2)))))
            now sel th dfs rng).map (fun l => acc2 ++ l))
        [] =
      (build_prop_pairs event mk).foldlM
        (fun acc2 pr =>
          (find_prop_ev_pair event mk pr.2 now sel th dfs rng).map
            (fun l => acc2 ++ l))
        [] := by
    apply foldlM_opt_congr
    intro acc2 pr
    rw [show pr.2.map (fun kv2 => (kv2.1, kv2.2.map
          (fun e => (filter_bookmaker prop_ev_keep e.1, e.2)))) =
        relabel_entries (filter_bookmaker prop_ev_keep) pr.2 from rfl]
    rw [find_prop_ev_pair_relabel (filter_bookmaker prop_ev_keep)
      (fun _ => rfl) (fun _ => rfl) (filter_event prop_ev_keep event) event
      rfl rfl rfl rfl mk pr.2 now sel th dfs rng]
  rw [hinner]

/-- Relabel the bookmakers inside the two-level arb group dictionary. -/
def relabel_arb_groups (f : Bookmaker → Bookmaker)
    (l : List ((Option String × Option ℚ) ×
      List (String × List (ℚ × Bookmaker × OutcomeOdds)))) :
    List ((Option String × Option ℚ) ×
      List (String × List (ℚ × Bookmaker × OutcomeOdds))) :=
  l.map (fun kv => (kv.1, kv.2.map
    (fun kv2 => (kv2.1, kv2.2.map (fun t => (t.1, f t.2.1, t.2.2))))))

/-- Relabel the bookmakers inside one arb group's sides. -/
def relabel_sides (f : Bookmaker → Bookmaker)
    (l : List (String × List (ℚ × Bookmaker × OutcomeOdds))) :
    List (String × List (ℚ × Bookmaker × OutcomeOdds)) :=
  l.map (fun kv => (kv.1, kv.2.map (fun t => (t.1, f t.2.1, t.2.2))))

/-- Relabel the bookmakers inside a best-per-side dictionary. -/
def relabel_best (f : Bookmaker → Bookmaker)
    (l : List (String × (ℚ × Bookmaker × OutcomeOdds))) :
    List (String × (ℚ × Bookmaker × OutcomeOdds)) :=
  l.map (fun kv => (kv.1, (kv.2.1, f kv.2.2.1, kv.2.2.2)))

/-- Relabel the bookmakers inside the player-to-lines dictionaries of
`_find_prop_market_middles`. -/
def relabel_ou (f : Bookmaker → Bookmaker)
    (pr : List (Option String × List (ℚ × ℚ × Bookmaker)) ×
      List (Option String × List (ℚ × ℚ × Bookmaker))) :
    List (Option String × List (ℚ × ℚ × Bookmaker)) ×
      List (Option String × List (ℚ × ℚ × Bookmaker)) :=
  (pr.1.map (fun kv => (kv.1, kv.2.map (fun t => (t.1, t.2.1, f t.2.2)))),
   pr.2.map (fun kv => (kv.1, kv.2.map (fun t => (t.1, t.2.1, f t.2.2)))))

/-- The quotes the prop arb/middle loops skip are exactly those
`prop_line_keep` drops. -/
theorem prop_line_keep_false (out : OutcomeOdds)
    (hk : prop_line_keep out = false) :
    (!(descr_truthy out) || out.point.isNone) = true := by
  cases hdt : descr_truthy out <;> cases hpt : out.point <;>
    simp_all [prop_line_keep]

/-- Grouping for prop arbs on the filtered event relabels the stored
bookmakers and nothing else. -/
theorem build_prop_arb_groups_filter (event : Event) (mk : String)
    (dfs : Option (List (String × ℚ))) :
    build_prop_arb_groups (filter_event prop_line_keep event) mk dfs =
      relabel_arb_groups (filter_bookmaker prop_line_keep)
        (build_prop_arb_groups event mk dfs) := by
  unfold build_prop_arb_groups filter_event
  rw [List.foldl_map]
  refine foldl_map_rel (relabel_arb_groups (filter_bookmaker prop_line_keep))
    event.bookmakers _ _ [] ?_
  intro acc bm
  rw [get_market_outcomes_filter]
  cases hgo : get_market_outcomes bm mk with
  | none => rfl
  | some os =>
      simp only [Option.map_some']
      rw [foldl_if_empty, foldl_if_empty,
        foldl_filter_skip prop_line_keep _
          (by
            intro a2 out hk
            simp [prop_line_keep_false out hk])]
      refine foldl_map_rel _ os _ _ acc ?_
      intro a2 out
      cases hd : (!(descr_truthy out) || out.point.isNone)
      · simp only [hd, Bool.false_eq_true, if_false]
        rw [effective_price_key out bm (filter_bookmaker prop_line_keep bm) rfl dfs]
        exact upsert_append2_map
          (fun t => (t.1, filter_bookmaker prop_line_keep t.2.1, t.2.2)) _ _
          (effective_price out bm dfs, bm, out) a2
      · simp [hd]

/-- One arb group emits the same bets after a key- and title-preserving
relabeling of its stored bookmakers. -/
theorem prop_arbs_of_group_relabel (f : Bookmaker → Bookmaker)
    (hkey : ∀ bm, (f bm).key = bm.key)
    (htitle : ∀ bm, (f bm).title = bm.title)
    (e1 e2 : Event) (h1 : e1.sport_key = e2.sport_key) (h2 : e1.id = e2.id)
    (h3 : e1.home_team = e2.home_team) (h4 : e1.away_team = e2.away_team)
    (mk : String) (sides : List (String × List (ℚ × Bookmaker × OutcomeOdds)))
    (minp : ℚ) :
    prop_arbs_of_group e1 mk (relabel_sides f sides) minp =
      prop_arbs_of_group e2 mk sides minp := by
  unfold prop_arbs_of_group relabel_sides
  rw [List.length_map]
  by_cases hl : sides.length < 2
  · simp [hl]
  · simp only [hl, if_false]
    have hbest :
        (sides.map (fun kv => (kv.1, kv.2.map (fun t => (t.1, f t.2.1, t.2.2))))).foldl
          (fun best kv =>
            kv.2.foldl (fun best2 e => upsert_best kv.1 e.1 e.2.1 e.2.2 best2) best)
          [] =
        relabel_best f
          (sides.foldl
            (fun best kv =>
              kv.2.foldl (fun best2 e => upsert_best kv.1 e.1 e.2.1 e.2.2 best2) best)
            []) := by
      rw [List.foldl_map]
      refine foldl_map_rel (relabel_best f) sides _ _ [] ?_
      intro best kv
      rw [List.foldl_map]
      refine foldl_map_rel _ kv.2 _ _ best ?_
      intro b2 e
      exact upsert_best_map f kv.1 e.1 e.2.1 e.2.2 b2
    rw [hbest]
    rw [show relabel_best f
        (sides.foldl
          (fun best kv =>
            kv.2.foldl (fun best2 e => upsert_best kv.1 e.1 e.2.1 e.2.2 best2) best)
          []) =
      (sides.foldl
          (fun best kv =>
            kv.2.foldl (fun best2 e => upsert_best kv.1 e.1 e.2.1 e.2.2 best2) best)
          []).map (fun kv => (kv.1, (kv.2.1, f kv.2.2.1, kv.2.2.2))) from rfl]
    rw [all_ordered_pairs_map, List.foldl_map]
    apply foldl_congr_fn
    intro acc pr
    simp [hkey, htitle, h1, h2, h3, h4]

/-- `_find_prop_market_arbs` ignores the quote filtering. -/
theorem find_prop_market_arbs_filter (event : Event) (mk : String) (minp : ℚ)
    (dfs : Option (List (String × ℚ))) :
    find_prop_market_arbs (filter_event prop_line_keep event) mk minp dfs =
      find_prop_market_arbs event mk minp dfs := by
  unfold find_prop_market_arbs
  rw [build_prop_arb_groups_filter]
  unfold relabel_arb_groups
  rw [List.foldl_map]
  apply foldl_congr_fn
  intro acc grp
  exact congrArg (fun z => acc ++ z)
    (prop_arbs_of_group_relabel (filter_bookmaker prop_line_keep)
      (fun _ => rfl) (fun _ => rfl) (filter_event prop_line_keep event) event
      rfl rfl rfl rfl mk grp.2 minp)

/-- Grouping for prop middles on the filtered event relabels the stored
bookmakers and nothing else. -/
theorem build_player_ou_filter (event : Event) (mk : String)
    (dfs : Option (List (String × ℚ))) :
    build_player_overs_unders (filter_event prop_line_keep event) mk dfs =
      relabel_ou (filter_bookmaker prop_line_keep)
        (build_player_overs_unders event mk dfs) := by
  unfold build_player_overs_unders filter_event
  rw [List.foldl_map]
  refine foldl_map_rel (relabel_ou (filter_bookmaker prop_line_keep))
    event.bookmakers _ _ ([], []) ?_
  intro acc bm
  rw [get_market_outcomes_filter]
  cases hgo : get_market_outcomes bm mk with
  | none => rfl
  | some os =>
      simp only [Option.map_some']
      rw [foldl_if_empty, foldl_if_empty,
        foldl_filter_skip prop_line_keep _
          (by
            intro a2 out hk
            simp [prop_line_keep_false out hk])]
      refine foldl_map_rel _ os _ _ acc ?_
      intro a2 out
      cases hd : (!(descr_truthy out) || out.point.isNone)
      · simp only [hd, Bool.false_eq_true, if_false]
        rw [effective_price_key out bm (filter_bookmaker prop_line_keep bm) rfl dfs]
        by_cases hov : out.name = ("Over")
        · simp only [hov, if_true]
          exact congrArg
            (fun z => (z, ((relabel_ou (filter_bookmaker prop_line_keep) a2).2)))
            (upsert_append_map (fun t => (t.1, t.2.1, filter_bookmaker prop_line_keep t.2.2))
              out.description (out.point.getD 0, effective_price out bm dfs, bm) a2.1)
        · simp only [hov, if_false]
          by_cases hun : out.name = ("Under")
          · simp only [hun, if_true]
            exact congrArg
              (fun z => (((relabel_ou (filter_bookmaker prop_line_keep) a2).1), z))
              (upsert_append_map (fun t => (t.1, t.2.1, filter_bookmaker prop_line_keep t.2.2))
                out.description (out.point.getD 0, effective_price out bm dfs, bm) a2.2)
          · simp [hun]
      · simp [hd]

/-- The Over/Under middle scan ignores a key- and title-preserving
relabeling of the bookmakers attached to the lines. -/
theorem total_middle_scan_relabel (f : Bookmaker → Bookmaker)
    (hkey : ∀ bm, (f bm).key = bm.key)
    (htitle : ∀ bm, (f bm).title = bm.title)
    (e1 e2 : Event) (h1 : e1.sport_key = e2.sport_key) (h2 : e1.id = e2.id)
    (h3 : e1.home_team = e2.home_team) (h4 : e1.away_team = e2.away_team)
    (mk : String) (overs unders : List (ℚ × ℚ × Bookmaker))
    (minw maxc : ℚ) (player : Option String) (acc0 : List MiddleBet) :
    total_middle_scan e1 mk (overs.map (fun t => (t.1, t.2.1, f t.2.2)))
        (unders.map (fun t => (t.1, t.2.1, f t.2.2))) minw maxc player acc0 =
      total_middle_scan e2 mk overs unders minw maxc player acc0 := by
  unfold total_middle_scan
  rw [foldlM_opt_map]
  apply foldlM_opt_congr
  intro acc ov
  rw [foldlM_opt_map]
  apply foldlM_opt_congr
  intro acc2 un
  simp [hkey, htitle, h1, h2, h3, h4]

/-- `_find_prop_market_middles` ignores the quote filtering. -/
theorem find_prop_market_middles_filter (event : Event) (mk : String)
    (minw maxc : ℚ) (dfs : Option (List (String × ℚ))) :
    find_prop_market_middles (filter_event prop_line_keep event) mk minw maxc dfs =
      find_prop_market_middles event mk minw maxc dfs := by
  unfold find_prop_market_middles
  rw [build_player_ou_filter]
  unfold relabel_ou
  simp only []
  rw [foldlM_opt_map]
  apply foldlM_opt_congr
  intro acc kv
  rw [alist_lookup_map_val (fun es => es.map
    (fun t => (t.1, t.2.1, filter_bookmaker prop_line_keep t.2.2))) kv.1
    (build_player_overs_unders event mk dfs).2]
  cases hlk : alist_lookup kv.1 (build_player_overs_unders event mk dfs).2 with
  | none => rfl
  | some unders =>
      simp only [Option.map_some']
      exact total_middle_scan_relabel (filter_bookmaker prop_line_keep)
        (fun _ => rfl) (fun _ => rfl) (filter_event prop_line_keep event) event
        rfl rfl rfl rfl mk kv.2 unders minw maxc kv.1 acc

/-- C10: every prop-market detector silently skips any outcome quote whose
player description is missing or empty (and, for prop arbs/middles, whose
line is missing): removing exactly those quotes from every event leaves each
detector's output unchanged, so a skipped quote contributes to no group, no
consensus, no contributor count and no emitted opportunity. -/
theorem prop_detectors_skip_falsy_quotes (events : List Event)
    (sel : Option (List String)) (th : ℚ) (dfs : Option (List (String × ℚ)))
    (rng : Option (ℚ × ℚ)) (now : ℕ) (minp minw maxc : ℚ) :
    find_ev_bets (events.map (filter_event prop_ev_keep)) sel th true dfs rng now =
      find_ev_bets events sel th true dfs rng now ∧
    find_prop_arb_bets (events.map (filter_event prop_line_keep)) minp dfs =
      find_prop_arb_bets events minp dfs ∧
    find_prop_middle_bets (events.map (filter_event prop_line_keep)) minw maxc dfs =
      find_prop_middle_bets events minw maxc dfs := by
  refine ⟨?_, ?_, ?_⟩
  · unfold find_ev_bets
    refine congrArg
      (fun z => z >>= fun ev_bets =>
        pure (sort_desc (fun b : EVBet => b.ev_percentage) ev_bets)) ?_
    rw [foldlM_opt_map]
    apply foldlM_opt_congr
    intro acc ev
    simp [find_prop_ev_filter]
  · simp only [find_prop_arb_bets]
    refine congrArg (sort_desc (fun a : ArbBet => a.profit_pct)) ?_
    rw [List.foldl_map]
    apply foldl_congr_fn
    intro acc ev
    rw [discover_filter_event]
    apply foldl_congr_fn
    intro acc2 mk
    rw [find_prop_market_arbs_filter]
  · unfold find_prop_middle_bets
    refine congrArg
      (fun z => z >>= fun middles =>
        pure (sort_desc (fun m : MiddleBet => m.ev_percentage) middles)) ?_
    rw [foldlM_opt_map]
    apply foldlM_opt_congr
    intro acc ev
    rw [discover_filter_event]
    apply foldlM_opt_congr
    intro acc2 mk
    rw [find_prop_market_middles_filter]

/-! ### Odds algebra for the monotonicity claim -/

/-- An American price that is actually quotable: at most −100 or at least
+100. -/
def is_legal_odds (q : ℚ) : Prop :=
  q ≤ -100 ∨ 100 ≤ q

/-- The same quote at another price. -/
def set_price (o : OutcomeOdds) (q : ℚ) : OutcomeOdds :=
  { o with price := q }

/-- The total value of `american_to_decimal` on legal odds. -/
def dec_val (a : ℚ) : ℚ :=
  if 100 ≤ a then a / 100 + 1 else 100 / |a| + 1

/-- The raw-quote implied-probability average of a group's entries, the
quantity `_calculate_market_avg_no_vig` averages per outcome. -/
def group_avg (es : List (Bookmaker × OutcomeOdds)) : ℚ :=
  (es.map (fun e => american_to_implied_prob (effective_price e.2 e.1 none))).sum /
    (es.length : ℚ)

/-- Implied probabilities are strictly positive. -/
theorem american_to_implied_prob_pos (a : ℚ) :
    0 < american_to_implied_prob a := by
  unfold american_to_implied_prob
  split
  · rename_i h
    have h1 : 0 < |a| := abs_pos.mpr (ne_of_lt h)
    have h2 : 0 < |a| + 100 := by linarith
    exact div_pos h1 h2
  · rename_i h
    push_neg at h
    have h2 : 0 < a + 100 := by linarith
    exact div_pos (by norm_num) h2

/-- A nonempty list of positive rationals has positive sum. -/
theorem sum_pos_of_forall_pos (l : List ℚ) (hne : l ≠ [])
    (h : ∀ x ∈ l, 0 < x) : 0 < l.sum := by
  cases l with
  | nil => exact absurd rfl hne
  | cons a t =>
      simp only [List.sum_cons]
      have ha := h a (List.mem_cons_self a t)
      have ht : 0 ≤ t.sum :=
        List.sum_nonneg (fun x hx => le_of_lt (h x (List.mem_cons_of_mem a hx)))
      linarith

/-- On legal odds, `american_to_decimal` succeeds with value `dec_val`. -/
theorem american_to_decimal_eq_dec_val (p : ℚ) (hp : is_legal_odds p) :
    american_to_decimal p = some (dec_val p) := by
  unfold american_to_decimal dec_val
  rcases hp with h | h
  · have hn : ¬ (100 ≤ p) := by linarith
    have hz : ¬ (p = 0) := by intro h0; rw [h0] at h; norm_num at h
    rw [if_neg hn, if_neg hz, if_neg hn]
  · rw [if_pos h, if_pos h]

/-- Legal decimal odds exceed 1. -/
theorem one_lt_dec_val (p : ℚ) (hp : is_legal_odds p) : 1 < dec_val p := by
  unfold dec_val
  rcases hp with h | h
  · have hn : ¬ (100 ≤ p) := by linarith
    rw [if_neg hn]
    have h0 : 0 < |p| := abs_pos.mpr (by intro h0; rw [h0] at h; norm_num at h)
    have h1 : 0 < 100 / |p| := by positivity
    linarith
  · rw [if_pos h]
    have h1 : (1:ℚ) ≤ p / 100 := (le_div_iff (by norm_num)).mpr (by linarith)
    linarith

/-- On legal odds, implied probability and decimal odds are reciprocal. -/
theorem imp_mul_dec_val (p : ℚ) (hp : is_legal_odds p) :
    american_to_implied_prob p * dec_val p = 1 := by
  unfold american_to_implied_prob dec_val
  rcases hp with h | h
  · have hneg : p < 0 := by linarith
    have hn : ¬ (100 ≤ p) := by linarith
    rw [if_pos hneg, if_neg hn]
    have habs : 0 < |p| := abs_pos.mpr (ne_of_lt hneg)
    have h2 : (0:ℚ) < |p| + 100 := by linarith
    field_simp
    ring
  · have hnneg : ¬ (p < 0) := by linarith
    rw [if_neg hnneg, if_pos h]
    have hp100 : 0 < p + 100 := by linarith
    field_simp

/-- Between legal prices, a strictly higher American price means a strictly
lower implied probability (the boundary pair −100/+100 excluded). -/
theorem imp_strict_anti (p p' : ℚ) (hp : is_legal_odds p)
    (hp' : is_legal_odds p') (hlt : p < p')
    (hbd : ¬ (p = -100 ∧ p' = 100)) :
    american_to_implied_prob p' < american_to_implied_prob p := by
  unfold american_to_implied_prob
  rcases hp with h1 | h1 <;> rcases hp' with h2 | h2
  · have hn1 : p < 0 := by linarith
    have hn2 : p' < 0 := by linarith
    rw [if_pos hn1, if_pos hn2, abs_of_neg hn1, abs_of_neg hn2]
    rw [div_lt_div_iff (by linarith) (by linarith)]
    nlinarith
  · have hn1 : p < 0 := by linarith
    have hn2 : ¬ (p' < 0) := by linarith
    rw [if_pos hn1, if_neg hn2, abs_of_neg hn1]
    have hL : 100 / (p' + 100) ≤ 1/2 := by
      rw [div_le_iff (by linarith)]
      linarith
    have hR : 1/2 ≤ -p / (-p + 100) := by
      rw [le_div_iff (by linarith)]
      linarith
    rcases lt_or_eq_of_le hL with hL' | hL'
    · linarith
    · have hp'eq : p' = 100 := by
        have h100 : (0:ℚ) < p' + 100 := by linarith
        field_simp at hL'
        linarith
      have hpne : p ≠ -100 := fun hpe => hbd ⟨hpe, hp'eq⟩
      have hplt : p < -100 := lt_of_le_of_ne h1 hpne
      have hR' : 1/2 < -p / (-p + 100) := by
        rw [lt_div_iff (by linarith)]
        linarith
      linarith
  · exfalso
    linarith
  · have hn1 : ¬ (p < 0) := by linarith
    have hn2 : ¬ (p' < 0) := by linarith
    rw [if_neg hn1, if_neg hn2]
    rw [div_lt_div_iff (by linarith) (by linarith)]
    nlinarith

/-- Between legal prices, a strictly higher American price means strictly
higher decimal odds (the boundary pair −100/+100 excluded). -/
theorem dec_val_strict_mono (p p' : ℚ) (hp : is_legal_odds p)
    (hp' : is_legal_odds p') (hlt : p < p')
    (hbd : ¬ (p = -100 ∧ p' = 100)) :
    dec_val p < dec_val p' := by
  unfold dec_val
  rcases hp with h1 | h1 <;> rcases hp' with h2 | h2
  · have hn1 : ¬ (100 ≤ p) := by linarith
    have hn2 : ¬ (100 ≤ p') := by linarith
    rw [if_neg hn1, if_neg hn2, abs_of_neg (by linarith), abs_of_neg (by linarith)]
    have hm : 100 / -p < 100 / -p' := by
      rw [div_lt_div_iff (by linarith) (by linarith)]
      nlinarith
    linarith
  · have hn1 : ¬ (100 ≤ p) := by linarith
    rw [if_neg hn1, if_pos h2, abs_of_neg (by linarith)]
    have hL : 100 / -p ≤ 1 := by
      rw [div_le_one (by linarith)]
      linarith
    have hR : 1 ≤ p' / 100 := (le_div_iff (by norm_num)).mpr (by linarith)
    rcases lt_or_eq_of_le hL with hL' | hL'
    · linarith
    · have hpeq : p = -100 := by
        have hp0 : (0:ℚ) < -p := by linarith
        field_simp at hL'
        linarith
      have hp'ne : p' ≠ 100 := fun h => hbd ⟨hpeq, h⟩
      have hgt : 100 < p' := lt_of_le_of_ne h2 (Ne.symm hp'ne)
      have : 1 < p' / 100 := by
        rw [lt_div_iff (by norm_num)]
        linarith
      linarith
  · exfalso
    linarith
  · rw [if_pos h1, if_pos h2]
    have : p / 100 < p' / 100 := (div_lt_div_right (by norm_num)).mpr hlt
    linarith

/-- Appending under a fresh key lands at the end of the dictionary. -/
theorem upsert_append_fresh {K A : Type} [DecidableEq K] (k : K) (v : A)
    (l : List (K × List A)) (h : ∀ kv ∈ l, kv.1 ≠ k) :
    upsert_append k v l = l ++ [(k, [v])] := by
  induction l with
  | nil => rfl
  | cons kv rest ih =>
      obtain ⟨k', vs⟩ := kv
      have hk : ¬ (k' = k) := h (k', vs) (List.mem_cons_self _ _)
      simp only [upsert_append, if_neg hk, List.cons_append]
      rw [ih (fun kv2 hkv2 => h kv2 (List.mem_cons_of_mem _ hkv2))]

/-- Appending under the trailing key extends its list. -/
theorem upsert_append_snoc {K A : Type} [DecidableEq K] (k : K) (v : A)
    (l : List (K × List A)) (ys : List A) (h : ∀ kv ∈ l, kv.1 ≠ k) :
    upsert_append k v (l ++ [(k, ys)]) = l ++ [(k, ys ++ [v])] := by
  induction l with
  | nil => simp [upsert_append]
  | cons kv rest ih =>
      obtain ⟨k', vs⟩ := kv
      have hk : ¬ (k' = k) := h (k', vs) (List.mem_cons_self _ _)
      simp only [List.cons_append, upsert_append, if_neg hk]
      exact congrArg (fun z => (k', vs) :: z)
        (ih (fun kv2 hkv2 => h kv2 (List.mem_cons_of_mem _ hkv2)))

/-- Folding a fresh key's values into the dictionary appends one entry
holding them all, in order. -/
theorem foldl_upsert_fresh {K E A : Type} [DecidableEq K] (k : K) (g : E → A)
    (es : List E) (hes : es ≠ []) (l : List (K × List A))
    (h : ∀ kv ∈ l, kv.1 ≠ k) :
    es.foldl (fun acc e => upsert_append k (g e) acc) l = l ++ [(k, es.map g)] := by
  cases es with
  | nil => exact absurd rfl hes
  | cons e0 rest =>
      rw [List.foldl_cons, upsert_append_fresh k (g e0) l h]
      have aux : ∀ (t : List E) (ys : List A),
          t.foldl (fun acc e => upsert_append k (g e) acc) (l ++ [(k, ys)]) =
            l ++ [(k, ys ++ t.map g)] := by
        intro t
        induction t with
        | nil => intro ys; simp
        | cons e1 t2 ih =>
            intro ys
            rw [List.foldl_cons, upsert_append_snoc k (g e1) l ys h, ih (ys ++ [g e1])]
            simp
      have := aux rest [g e0]
      simpa using this

/-- `_calculate_market_avg_no_vig` on an explicit two-sided group with raw
prices: each side gets its implied-probability average normalized by the
two-side total, and the counts are the entry counts. -/
theorem calc_two_sided {K : Type} [DecidableEq K] (kA kB : K) (hk : kA ≠ kB)
    (eA eB : List (Bookmaker × OutcomeOdds)) (hA : eA ≠ []) (hB : eB ≠ []) :
    calculate_market_avg_no_vig [(kA, eA), (kB, eB)] none =
      ([(kA, group_avg eA / (group_avg eA + group_avg eB)),
        (kB, group_avg eB / (group_avg eA + group_avg eB))],
       [(kA, eA.length), (kB, eB.length)]) := by
  have gform : ∀ es : List (Bookmaker × OutcomeOdds),
      es.map (fun e => american_to_implied_prob (effective_price e.2 e.1 none)) =
        es.map (fun e => american_to_implied_prob (effective_price e.2 e.1 none)) :=
    fun _ => rfl
  have hposA : 0 < group_avg eA := by
    unfold group_avg
    apply div_pos
    · apply sum_pos_of_forall_pos _ (by simpa using hA)
      intro x hx
      rcases List.mem_map.mp hx with ⟨e, _, rfl⟩
      exact american_to_implied_prob_pos _
    · exact_mod_cast List.length_pos.mpr hA
  have hposB : 0 < group_avg eB := by
    unfold group_avg
    apply div_pos
    · apply sum_pos_of_forall_pos _ (by simpa using hB)
      intro x hx
      rcases List.mem_map.mp hx with ⟨e, _, rfl⟩
      exact american_to_implied_prob_pos _
    · exact_mod_cast List.length_pos.mpr hB
  unfold calculate_market_avg_no_vig
  have havg :
      ([(kA, eA), (kB, eB)]).foldl
        (fun acc kv =>
          kv.2.foldl
            (fun acc2 e =>
              upsert_append kv.1
                (american_to_implied_prob (effective_price e.2 e.1 none)) acc2)
            acc)
        [] =
      [(kA, eA.map (fun e => american_to_implied_prob (effective_price e.2 e.1 none))),
       (kB, eB.map (fun e => american_to_implied_prob (effective_price e.2 e.1 none)))] := by
    rw [List.foldl_cons, List.foldl_cons, List.foldl_nil]
    rw [foldl_upsert_fresh kA _ eA hA [] (by intro kv hkv; cases hkv)]
    rw [foldl_upsert_fresh kB _ eB hB _
      (by
        intro kv hkv
        rcases List.mem_singleton.mp (by simpa using hkv) with rfl
        exact hk)]
    simp
  rw [havg]
  have hAne : eA.map (fun e => american_to_implied_prob (effective_price e.2 e.1 none)) ≠ [] := by
    simpa using hA
  have hBne : eB.map (fun e => american_to_implied_prob (effective_price e.2 e.1 none)) ≠ [] := by
    simpa using hB
  simp only [List.filterMap_cons, List.filterMap_nil, hAne, hBne, if_false,
    List.map_cons, List.map_nil, List.sum_cons, List.sum_nil, List.length_map,
    add_zero]
  have htot : 0 < group_avg eA + group_avg eB := by linarith
  rw [if_pos (by
    unfold group_avg at htot
    exact htot)]
  unfold group_avg
  rfl

/-- The entry average of a nonempty group is positive. -/
theorem group_avg_pos (es : List (Bookmaker × OutcomeOdds)) (hne : es ≠ []) :
    0 < group_avg es := by
  unfold group_avg
  apply div_pos
  · apply sum_pos_of_forall_pos _ (by simpa using hne)
    intro x hx
    rcases List.mem_map.mp hx with ⟨e, _, rfl⟩
    exact american_to_implied_prob_pos _
  · exact_mod_cast List.length_pos.mpr hne

/-- A larger per-side average means a larger normalized share. -/
theorem novig_share_strict_mono (x y B : ℚ) (h : x < y) (hx : 0 < x)
    (hB : 0 < B) : x / (x + B) < y / (y + B) := by
  rw [div_lt_div_iff (by linarith) (by linarith)]
  nlinarith

/-- Core EV monotonicity: with reciprocal implied/decimal pairs, the side's
normalized share times the book's decimal odds strictly grows as the price
improves. -/
theorem ev_core_ineq (i i' S n B d d' : ℚ) (hi' : 0 < i') (hii : i' < i)
    (hS : 0 ≤ S) (hn : 0 < n) (hB : 0 < B) (hd1 : 1 < d) (hdd : d < d')
    (him : i * d = 1) (him' : i' * d' = 1) :
    (i + S) / n / ((i + S) / n + B) * d <
      (i' + S) / n / ((i' + S) / n + B) * d' := by
  have hd0 : 0 < d := by linarith
  have hd0' : 0 < d' := by linarith
  have hiS : 0 < i + S := by linarith
  have hiS' : 0 < i' + S := by linarith
  have hden : 0 < (i + S) / n + B := by positivity
  have hden' : 0 < (i' + S) / n + B := by positivity
  have hn0 : n ≠ 0 := ne_of_gt hn
  have hnB : 0 < n * B := mul_pos hn hB
  have hden2 : (0:ℚ) < (i + S) + n * B := by linarith
  have hden2' : (0:ℚ) < (i' + S) + n * B := by linarith
  have hdne : (i + S) / n + B ≠ 0 := ne_of_gt hden
  have hdne' : (i' + S) / n + B ≠ 0 := ne_of_gt hden'
  have hd2ne : (i + S) + n * B ≠ 0 := ne_of_gt hden2
  have hd2ne' : (i' + S) + n * B ≠ 0 := ne_of_gt hden2'
  have lhs_eq : (i + S) / n / ((i + S) / n + B) * d =
      ((i + S) * d) / ((i + S) + n * B) := by
    field_simp
    ring
  have rhs_eq : (i' + S) / n / ((i' + S) / n + B) * d' =
      ((i' + S) * d') / ((i' + S) + n * B) := by
    field_simp
    ring
  rw [lhs_eq, rhs_eq, div_lt_div_iff hden2 hden2']
  have h1 : d * i' < d' * i := by nlinarith
  have hp1 : i * d * (i' + S + n * B) = i' + S + n * B := by
    rw [him]
    ring
  have hp2 : i' * d' * (i + S + n * B) = i + S + n * B := by
    rw [him']
    ring
  have hq1 : 0 ≤ S * (d' * i) - S * (d * i') := by
    have := mul_le_mul_of_nonneg_left (le_of_lt h1) hS
    linarith
  have hq2 : 0 ≤ S * S * (d' - d) :=
    mul_nonneg (mul_nonneg hS hS) (by linarith)
  have hq3 : 0 ≤ S * (n * B) * (d' - d) :=
    mul_nonneg (mul_nonneg hS (le_of_lt (mul_pos hn hB))) (by linarith)
  nlinarith [hp1, hp2, hq1, hq2, hq3, hii, mul_pos hn hB]

/-- C9 (amended): in a two-sided no-vig group, strictly increasing a single
book's legal American price for one side — all other quotes unchanged —
strictly DECREASES that side's no-vig consensus probability (the higher
price carries a lower implied probability) and strictly INCREASES that
book's own EV% `(no_vig × decimal − 1) × 100` at its price. -/
theorem ev_strictly_monotone_in_price {K : Type} [DecidableEq K]
    (kA kB : K) (hk : kA ≠ kB) (bm0 : Bookmaker) (o : OutcomeOdds)
    (restA entB : List (Bookmaker × OutcomeOdds)) (hB : entB ≠ [])
    (p p' : ℚ) (hp : is_legal_odds p) (hp' : is_legal_odds p')
    (hlt : p < p') (hbd : ¬ (p = -100 ∧ p' = 100)) (nv nv' : ℚ)
    (hnv : alist_lookup kA (calculate_market_avg_no_vig
      [(kA, (bm0, set_price o p) :: restA), (kB, entB)] none).1 = some nv)
    (hnv' : alist_lookup kA (calculate_market_avg_no_vig
      [(kA, (bm0, set_price o p') :: restA), (kB, entB)] none).1 = some nv') :
    nv' < nv ∧
      (nv * (american_to_decimal p).getD 0 - 1) * 100 <
        (nv' * (american_to_decimal p').getD 0 - 1) * 100 := by
  rw [calc_two_sided kA kB hk _ entB (List.cons_ne_nil _ _) hB] at hnv
  rw [calc_two_sided kA kB hk _ entB (List.cons_ne_nil _ _) hB] at hnv'
  simp only [alist_lookup, eq_self_iff_true, if_true, Option.some.injEq]
    at hnv hnv'
  have hga : ∀ q : ℚ, group_avg ((bm0, set_price o q) :: restA) =
      (american_to_implied_prob q +
        (restA.map
          (fun e => american_to_implied_prob (effective_price e.2 e.1 none))).sum) /
        ((restA.length : ℚ) + 1) := by
    intro q
    unfold group_avg
    simp only [List.map_cons, List.sum_cons, List.length_cons]
    push_cast
    rfl
  rw [hga p] at hnv
  rw [hga p'] at hnv'
  rw [american_to_decimal_eq_dec_val p hp, american_to_decimal_eq_dec_val p' hp']
  simp only [Option.getD_some]
  subst hnv
  subst hnv'
  have hi : 0 < american_to_implied_prob p := american_to_implied_prob_pos p
  have hi' : 0 < american_to_implied_prob p' := american_to_implied_prob_pos p'
  have hii : american_to_implied_prob p' < american_to_implied_prob p :=
    imp_strict_anti p p' hp hp' hlt hbd
  have hS : 0 ≤ (restA.map
      (fun e => american_to_implied_prob (effective_price e.2 e.1 none))).sum :=
    List.sum_nonneg (by
      intro x hx
      rcases List.mem_map.mp hx with ⟨e, _, rfl⟩
      exact le_of_lt (american_to_implied_prob_pos _))
  have hn : (0:ℚ) < (restA.length : ℚ) + 1 := by positivity
  have hBpos : 0 < group_avg entB := group_avg_pos entB hB
  constructor
  · apply novig_share_strict_mono
    · exact (div_lt_div_right hn).mpr (by linarith)
    · positivity
    · exact hBpos
  · have core := ev_core_ineq _ _ _ _ _ _ _ hi' hii hS hn hBpos
      (one_lt_dec_val p hp) (dec_val_strict_mono p p' hp hp' hlt hbd)
      (imp_mul_dec_val p hp) (imp_mul_dec_val p' hp')
    linarith [core]

/-- The first bookmaker of the C9 witness group. -/
def c9_bm0 : Bookmaker := one_market_bm ("bx") ("BX") ("h2h") []

/-- The quote whose price the C9 witness varies. -/
def c9_base_quote : OutcomeOdds := ml_quote ("A") 0

/-- The other side-A quotes of the C9 witness group. -/
def c9_restA : List (Bookmaker × OutcomeOdds) :=
  [(one_market_bm ("by") ("BY") ("h2h") [], ml_quote ("A") (-110)),
   (one_market_bm ("bz") ("BZ") ("h2h") [], ml_quote ("A") (-110))]

/-- The side-B quotes of the C9 witness group. -/
def c9_entB : List (Bookmaker × OutcomeOdds) :=
  [(one_market_bm ("bx") ("BX") ("h2h") [], ml_quote ("B") (-110)),
   (one_market_bm ("by") ("BY") ("h2h") [], ml_quote ("B") (-110)),
   (one_market_bm ("bz") ("BZ") ("h2h") [], ml_quote ("B") (-110))]

/-- C9 witness: raising the distinguished book's price from −110 to +100 in
a 3-by-3 all-(−110) group moves the side's no-vig from 1/2 down to 65/131
while the book's EV% strictly rises. -/
theorem ev_strictly_monotone_in_price_witness :
    (65/131 : ℚ) < 1/2 ∧
      ((1/2 : ℚ) * ((american_to_decimal (-110)).getD 0) - 1) * 100 <
        ((65/131 : ℚ) * ((american_to_decimal 100).getD 0) - 1) * 100 :=
  ev_strictly_monotone_in_price ("A") ("B") (by decide) c9_bm0 c9_base_quote
    c9_restA c9_entB (by decide) (-110) 100 (Or.inl (by norm_num))
    (Or.inr (by norm_num)) (by norm_num) (by decide) (1/2) (65/131)
    (by decide) (by decide)

/-- C9 counterexample: raising the first book's side-A price from −110 to
+100 strictly LOWERS side A's no-vig consensus probability (a higher American
price means a lower implied probability, hence a lower share after
normalization), contradicting the claim's "strictly increases". -/
theorem no_vig_price_monotonicity_claim_false :
    (alist_lookup ("A")
        (calculate_market_avg_no_vig (c9_book_outcomes 100) none).1).getD 0 <
      (alist_lookup ("A")
        (calculate_market_avg_no_vig (c9_book_outcomes (-110)) none).1).getD 0 := by
  decide

end OddsCli
